import Mathlib

/-!
Shallow embedding of the tinykv Raft core: the consensus state machine of
`raft/raft.go` together with the in-memory `RaftLog`, translated function
by function from the Go source.

Modelling conventions:
* Go `uint64` values become `Nat`; the only subtraction sites that can
  wrap in Go are noted inline and modelled with the wraparound behaviour
  made explicit.
* Go slices become `List`, and Go maps become association lists (Go map
  iteration order is unspecified; the embedding iterates in list order,
  a deterministic refinement).
* A Go panic (nil-map dereference, slice index out of range, explicit
  `panic(err)`) is modelled as `Option.none`: every operation that can
  abort returns an `Option`.
* `rand.Intn` is modelled by an explicit oracle stream (`randSrc`)
  carried in the state; each draw consumes one value from the stream and
  reduces it modulo the requested bound.
-/

namespace TinyKV

/-- Storage-level errors `ErrCompacted` and `ErrUnavailable`. -/
inductive RErr where
  | compacted
  | unavailable
deriving DecidableEq

/-- The role of a node: `StateFollower`, `StateCandidate`, `StateLeader`. -/
inductive StateType where
  | follower
  | candidate
  | leader
deriving DecidableEq

/-- Message types of `eraftpb.MessageType`. -/
inductive MsgType where
  | hup
  | beat
  | propose
  | append
  | appendResponse
  | requestVote
  | requestVoteResponse
  | snapshot
  | heartbeat
  | heartbeatResponse
  | transferLeader
  | timeoutNow
deriving DecidableEq

/-- A log entry `pb.Entry`: `(Term, Index, Data)`; the payload is
abstracted to a single `Nat` (the claims never inspect it). -/
structure Entry where
  term : Nat
  index : Nat
  data : Nat := 0
deriving DecidableEq

/-- Snapshot metadata `(last-included index, last-included term)`. -/
structure SnapMeta where
  index : Nat
  term : Nat
deriving DecidableEq

/-- A `pb.Message`; unused fields default to zero values as in Go. -/
structure Message where
  msgType : MsgType
  toId : Nat := 0
  fromId : Nat := 0
  term : Nat := 0
  logTerm : Nat := 0
  index : Nat := 0
  entries : List Entry := []
  commit : Nat := 0
  reject : Bool := false
deriving DecidableEq

/-- The part of the `Storage` interface the embedded code consumes:
`FirstIndex`, `LastIndex` and `Term(i)`.  `Term` answers a term or one of
the two storage errors, per the interface contract. -/
structure Storage where
  firstIndex : Nat
  lastIndex : Nat
  term : Nat → Except RErr Nat

/-- `IsEmptySnap`: a snapshot slot is empty when absent or when its
metadata index is zero. -/
def isEmptySnap : Option SnapMeta → Bool
  | none => true
  | some ps => ps.index == 0

/-- The `RaftLog` structure: storage handle, the three cursors, the
in-memory tail, the pending-snapshot slot and `first`. -/
structure RaftLog where
  storage : Storage
  committed : Nat := 0
  applied : Nat := 0
  stabled : Nat := 0
  entries : List Entry := []
  pendingSnapshot : Option SnapMeta := none
  first : Nat := 0

/-- Result of a term lookup: a term, a storage error, or a Go panic
(index out of range inside `l.entries[i-l.first]`). -/
inductive TermResult where
  | ok (t : Nat)
  | err (e : RErr)
  | panicked
deriving DecidableEq

/-- `RaftLog.LastIndex`: maximum of the in-memory tail's last index, the
pending snapshot's index, and (when the tail is empty) storage's
LastIndex. -/
def RaftLog.LastIndex (l : RaftLog) : Nat :=
  let index := match l.pendingSnapshot with
    | some ps => if isEmptySnap l.pendingSnapshot then 0 else ps.index
    | none => 0
  match l.entries.getLast? with
  | some e => max e.index index
  | none => max l.storage.lastIndex index

/-- `RaftLog.Term(i)`: the in-memory tail is consulted first (when the
tail is nonempty and `i ≥ first`; an `i` beyond the tail is a Go index
out of range, i.e. a panic), then Storage; the pending snapshot is
consulted only as a fallback when Storage answers Unavailable. -/
def RaftLog.Term (l : RaftLog) (i : Nat) : TermResult :=
  if 0 < l.entries.length ∧ l.first ≤ i then
    match l.entries[i - l.first]? with
    | some e => .ok e.term
    | none => .panicked
  else
    match l.storage.term i with
    | .ok t => .ok t
    | .error e =>
      match e, l.pendingSnapshot with
      | .unavailable, some ps =>
        if isEmptySnap (some ps) then .err .unavailable
        else if i = ps.index then .ok ps.term
        else if i < ps.index then .err .compacted
        else .err .unavailable
      | e, _ => .err e

/-- `RaftLog.FirstIndex`. -/
def RaftLog.FirstIndex (l : RaftLog) : Nat :=
  l.first

/-- `toSliceIndex`: `int(ei - first)`, which panics when negative. -/
def RaftLog.toSliceIndex (l : RaftLog) (ei : Nat) : Option Nat :=
  if ei < l.first then none else some (ei - l.first)

/-- `toEntryIndex`: `uint64(si) + first`. -/
def RaftLog.toEntryIndex (l : RaftLog) (si : Nat) : Nat :=
  si + l.first

/-- `maybeCompact`: when Storage's FirstIndex has advanced past `first`,
drop the in-memory prefix below it and raise `first`.  Go reslices with
`entries[toSliceIndex(idx):]`, which panics when the cut point exceeds
the slice length. -/
def RaftLog.maybeCompact (l : RaftLog) : Option RaftLog :=
  let idx := l.storage.firstIndex
  if l.first < idx then
    if 0 < l.entries.length then
      match l.toSliceIndex idx with
      | none => none
      | some k =>
        if k ≤ l.entries.length then
          some { l with entries := l.entries.drop k, first := idx }
        else none
    else some { l with first := idx }
  else some l

/-- The term value a Go caller sees when it ignores the error of a
`Term` lookup: storage returns `0` alongside an error (per the
`MemoryStorage` contract); a panic still propagates. -/
def termResultValue : TermResult → Option Nat
  | .ok t => some t
  | .err _ => some 0
  | .panicked => none

/-- `isUpToDate(index, term)`: the candidate log is at least as
up-to-date as the local one.  Looks up the local last term, ignoring the
error (but not a panic). -/
def RaftLog.isUpToDate (l : RaftLog) (index term : Nat) : Option Bool :=
  let lastIndex := l.LastIndex
  (termResultValue (l.Term lastIndex)).map fun lastLogTerm =>
    decide (lastLogTerm < term) ||
      (term == lastLogTerm && decide (lastIndex ≤ index))

/-- A follower's progress in the leader's view. -/
structure Progress where
  Match : Nat := 0
  Next : Nat := 0
deriving DecidableEq

/-- The `Raft` state; `Prs` and `votes` are association lists standing
for the Go maps, `msgs` the outbound drain buffer, `randSrc` the oracle
stream feeding `rand.Intn`. -/
structure Raft where
  id : Nat
  Term : Nat := 0
  Vote : Nat := 0
  RaftLog : RaftLog
  Prs : List (Nat × Progress) := []
  State : StateType := .follower
  votes : List (Nat × Bool) := []
  msgs : List Message := []
  Lead : Nat := 0
  heartbeatTimeout : Nat := 0
  electionTimeout : Nat := 0
  heartbeatElapsed : Nat := 0
  electionElapsed : Nat := 0
  leadTransferee : Nat := 0
  PendingConfIndex : Nat := 0
  randomizedElectionTimeout : Nat := 0
  randSrc : List Nat := []

/-- Lookup of `r.Prs[id]`; `none` stands for the nil pointer a missing
key yields, whose dereference is a panic. -/
def lookupPrs (prs : List (Nat × Progress)) (id : Nat) : Option Progress :=
  (prs.find? fun p => p.1 == id).map Prod.snd

/-- In-place update of a progress record keyed by `id`. -/
def updatePrs (prs : List (Nat × Progress)) (id : Nat) (f : Progress → Progress) :
    List (Nat × Progress) :=
  prs.map fun p => if p.1 == id then (p.1, f p.2) else p

/-- `r.votes[id] = b`: map upsert. -/
def setVote (vs : List (Nat × Bool)) (id : Nat) (b : Bool) : List (Nat × Bool) :=
  if vs.any (fun p => p.1 == id) then
    vs.map fun p => if p.1 == id then (p.1, b) else p
  else vs ++ [(id, b)]

/-- `resetRandomizedElectionTimeout`: draw
`electionTimeout + rand.Intn(electionTimeout)` from the oracle stream. -/
def Raft.resetRandomizedElectionTimeout (r : Raft) : Raft :=
  { r with
    randomizedElectionTimeout :=
      r.electionTimeout + r.randSrc.headD 0 % r.electionTimeout
    randSrc := r.randSrc.tail }

/-- The MsgAppend a leader sends to `toId`: previous index/term, the
in-memory entries from `prevLogIndex + 1` on, and the leader commit. -/
def mkAppendMsg (r : Raft) (toId prevLogIndex prevLogTerm start : Nat) : Message :=
  { msgType := .append
    toId := toId
    fromId := r.id
    term := r.Term
    logTerm := prevLogTerm
    index := prevLogIndex
    entries := r.RaftLog.entries.drop start
    commit := r.RaftLog.committed }

/-- `sendAppend(to)`: look up the peer's previous index, resolve its
term (ErrCompacted defers to the stubbed snapshot path and sends
nothing; any other error is a panic), and queue the MsgAppend. -/
def Raft.sendAppend (r : Raft) (toId : Nat) : Option (Raft × Bool) :=
  match lookupPrs r.Prs toId with
  | none => none
  | some pr =>
    match r.RaftLog.Term (pr.Next - 1) with
    | .err .compacted => some (r, false)
    | .err .unavailable => none
    | .panicked => none
    | .ok prevLogTerm =>
      match r.RaftLog.toSliceIndex (pr.Next - 1 + 1) with
      | none => none
      | some start =>
        some ({ r with
          msgs := r.msgs ++ [mkAppendMsg r toId (pr.Next - 1) prevLogTerm start] }, true)

/-- `sendAppendResponse(to, logTerm, index, reject)`. -/
def Raft.sendAppendResponse (r : Raft) (toId logTerm index : Nat) (reject : Bool) : Raft :=
  let msg : Message :=
    { msgType := .appendResponse
      toId := toId
      fromId := r.id
      term := r.Term
      logTerm := logTerm
      index := index
      reject := reject }
  { r with msgs := r.msgs ++ [msg] }

/-- `sendHeartbeat(to)`. -/
def Raft.sendHeartbeat (r : Raft) (toId : Nat) : Raft :=
  let msg : Message :=
    { msgType := .heartbeat
      toId := toId
      fromId := r.id
      term := r.Term }
  { r with msgs := r.msgs ++ [msg] }

/-- `sendHeartbeatResponse(to, reject)`. -/
def Raft.sendHeartbeatResponse (r : Raft) (toId : Nat) (reject : Bool) : Raft :=
  let msg : Message :=
    { msgType := .heartbeatResponse
      toId := toId
      fromId := r.id
      term := r.Term
      reject := reject }
  { r with msgs := r.msgs ++ [msg] }

/-- `sendRequestVote(to, index, term)`. -/
def Raft.sendRequestVote (r : Raft) (toId index term : Nat) : Raft :=
  let msg : Message :=
    { msgType := .requestVote
      toId := toId
      fromId := r.id
      term := r.Term
      logTerm := term
      index := index }
  { r with msgs := r.msgs ++ [msg] }

/-- `sendRequestVoteResponse(to, reject)`. -/
def Raft.sendRequestVoteResponse (r : Raft) (toId : Nat) (reject : Bool) : Raft :=
  let msg : Message :=
    { msgType := .requestVoteResponse
      toId := toId
      fromId := r.id
      term := r.Term
      reject := reject }
  { r with msgs := r.msgs ++ [msg] }

/-- `bcastHeartbeat`: a heartbeat to every other peer. -/
def Raft.bcastHeartbeat (r : Raft) : Raft :=
  r.Prs.foldl (fun acc p => if acc.id ≠ p.1 then acc.sendHeartbeat p.1 else acc) r

/-- The loop body of `bcastAppend`, over an explicit peer list. -/
def bcastAppendAux (r : Raft) : List (Nat × Progress) → Option Raft
  | [] => some r
  | p :: rest =>
    if r.id ≠ p.1 then
      match r.sendAppend p.1 with
      | none => none
      | some q => bcastAppendAux q.1 rest
    else bcastAppendAux r rest

/-- `bcastAppend`: `sendAppend` to every other peer. -/
def Raft.bcastAppend (r : Raft) : Option Raft :=
  bcastAppendAux r r.Prs

/-- `becomeFollower(term, lead)`: note that it clears `Vote`
unconditionally and does not reset `electionElapsed`. -/
def Raft.becomeFollower (r : Raft) (term lead : Nat) : Raft :=
  Raft.resetRandomizedElectionTimeout
    { r with State := .follower, Term := term, Lead := lead, Vote := 0 }

/-- `becomeCandidate`: term++, self-vote, fresh votes map. -/
def Raft.becomeCandidate (r : Raft) : Raft :=
  Raft.resetRandomizedElectionTimeout
    { r with
      State := .candidate
      Term := r.Term + 1
      Lead := 0
      Vote := r.id
      votes := [(r.id, true)] }

/-- `becomeLeader`: reset heartbeat timer, reinitialise progress, append
the no-op entry, broadcast, and in a size-1 cluster commit self-match. -/
def Raft.becomeLeader (r : Raft) : Option Raft :=
  let r := { r with State := .leader, Lead := r.id, heartbeatElapsed := 0 }
  let lastIndex := r.RaftLog.LastIndex
  let newPrs := r.Prs.map fun p =>
    if p.1 == r.id then
      (p.1, (⟨lastIndex + 1, lastIndex + 2⟩ : Progress))
    else
      (p.1, (⟨p.2.Match, lastIndex + 1⟩ : Progress))
  let noop : Entry := { term := r.Term, index := lastIndex + 1 }
  let newLog := { r.RaftLog with entries := r.RaftLog.entries ++ [noop] }
  let r := { r with Prs := newPrs, RaftLog := newLog }
  match r.bcastAppend with
  | none => none
  | some r =>
    if r.Prs.length == 1 then
      match lookupPrs r.Prs r.id with
      | none => none
      | some pr =>
        some { r with RaftLog := { r.RaftLog with committed := pr.Match } }
    else
      some r

/-- Go `sort.Search`'s binary-search loop: narrows `[i, j)` assuming the
predicate is monotone (false then true) and returns the least index at
which it holds, or `j` when it never does. -/
def sortSearchAux (f : Nat → Bool) (i j : Nat) : Nat :=
  if _h : i < j then
    let m := (i + j) / 2
    if f m then sortSearchAux f i m else sortSearchAux f (m + 1) j
  else i
termination_by j - i
decreasing_by
  · omega
  · omega

/-- Go `sort.Search(n, f)`. -/
def sortSearch (n : Nat) (f : Nat → Bool) : Nat :=
  sortSearchAux f 0 n

/-- The entry-merge loop of `handleAppendEntries`: skip entries below
`first`; on a term conflict at an occupied index, overwrite the slot,
truncate beyond it, and clamp `stabled`; past the last index, append the
remaining entries verbatim.  (When the conflicting index is `0`, Go's
`ent.Index - 1` wraps to `2^64 - 1`, so the `min` leaves `stabled`
unchanged.) -/
def mergeEntries (l : RaftLog) : List Entry → Option RaftLog
  | [] => some l
  | ent :: rest =>
    if ent.index < l.first then
      mergeEntries l rest
    else if ent.index ≤ l.LastIndex then
      match l.Term ent.index with
      | .ok logTerm =>
        if logTerm ≠ ent.term then
          match l.toSliceIndex ent.index with
          | none => none
          | some idx =>
            if idx < l.entries.length then
              mergeEntries { l with
                entries := (l.entries.set idx ent).take (idx + 1)
                stabled := if ent.index = 0 then l.stabled
                  else min l.stabled (ent.index - 1) } rest
            else none
        else
          mergeEntries l rest
      | _ => none
    else
      some { l with entries := l.entries ++ (ent :: rest) }

/-- `handleAppendEntries(m)`: term gate, leader/timer record, the two
reject cases, the merge loop, the commit update and the accept reply. -/
def Raft.handleAppendEntries (r : Raft) (m : Message) : Option Raft :=
  if m.term < r.Term then
    some (r.sendAppendResponse m.fromId 0 0 true)
  else
    let r := { r with Lead := m.fromId, electionElapsed := 0 }
    let lastIndex := r.RaftLog.LastIndex
    if lastIndex < m.index then
      some (r.sendAppendResponse m.fromId 0 (lastIndex + 1) true)
    else
      -- conflict probe at m.index: outer `none` is a panic, inner
      -- `some (logTerm, nexti)` the data of the conflict reject.
      -- Go probes entries[k] for k below the search bound; a bound
      -- beyond the slice length can index out of range.
      let conflict : Option (Option (Nat × Nat)) :=
        if r.RaftLog.FirstIndex ≤ m.index then
          match r.RaftLog.Term m.index with
          | .ok logTerm =>
            if logTerm ≠ m.logTerm then
              match r.RaftLog.toSliceIndex (m.index + 1) with
              | none => none
              | some bound =>
                if bound ≤ r.RaftLog.entries.length then
                  some (some (logTerm,
                    r.RaftLog.toEntryIndex (sortSearch bound fun k =>
                      (r.RaftLog.entries.getD k ⟨0, 0, 0⟩).term == logTerm)))
                else none
            else some none
          | _ => none
        else some none
      match conflict with
      | none => none
      | some (some (logTerm, nexti)) =>
        some (r.sendAppendResponse m.fromId logTerm nexti true)
      | some none =>
        match mergeEntries r.RaftLog m.entries with
        | none => none
        | some newLog =>
          let newLog :=
            if newLog.committed < m.commit then
              { newLog with committed := min m.commit (m.index + m.entries.length) }
            else newLog
          let r := { r with RaftLog := newLog }
          some (r.sendAppendResponse m.fromId 0 r.RaftLog.LastIndex false)

/-- The quorum index computed by `leaderCommit`: every peer's Match
collected, sorted ascending (the `uint64Slice` ordering is not under
`src/` and is modelled from the spec: ascending by value), then the
element at `(n-1)/2`; `none` is the out-of-range panic of an empty
peer set. -/
def medianMatch (prs : List (Nat × Progress)) : Option Nat :=
  let matchList := (prs.map fun p => p.2.Match).insertionSort (· ≤ ·)
  matchList[(matchList.length - 1) / 2]?

/-- `leaderCommit`: take the quorum match index, and commit-and-broadcast
only when it advances `committed` and carries the leader's own term. -/
def Raft.leaderCommit (r : Raft) : Option Raft :=
  match medianMatch r.Prs with
  | none => none
  | some n =>
    if r.RaftLog.committed < n then
      match r.RaftLog.Term n with
      | .ok logTerm =>
        if logTerm == r.Term then
          Raft.bcastAppend { r with RaftLog := { r.RaftLog with committed := n } }
        else some r
      | _ => none
    else some r

/-- `handleAppendEntriesResponse(m)`: stale-term drop, reject-hint
back-off with the leader-side binary search, and the accept path that
raises the peer's progress and attempts a commit advance. -/
def Raft.handleAppendEntriesResponse (r : Raft) (m : Message) : Option Raft :=
  if m.term < r.Term then
    some r
  else if m.reject then
    if m.index == 0 then some r
    else
      let rejectHint :=
        if m.logTerm ≠ 0 then
          let sliceIndex := sortSearch r.RaftLog.entries.length fun k =>
            decide (m.logTerm < (r.RaftLog.entries.getD k ⟨0, 0, 0⟩).term)
          if 0 < sliceIndex ∧
              (r.RaftLog.entries.getD (sliceIndex - 1) ⟨0, 0, 0⟩).term == m.logTerm then
            r.RaftLog.toEntryIndex sliceIndex
          else m.index
        else m.index
      match lookupPrs r.Prs m.fromId with
      | none => none
      | some _ =>
        let r := { r with
          Prs := updatePrs r.Prs m.fromId fun pr => { pr with Next := rejectHint } }
        match r.sendAppend m.fromId with
        | none => none
        | some q => some q.1
  else
    match lookupPrs r.Prs m.fromId with
    | none => none
    | some pr =>
      if pr.Match < m.index then
        let r := { r with
          Prs := updatePrs r.Prs m.fromId fun _ => ⟨m.index, m.index + 1⟩ }
        r.leaderCommit
      else some r

/-- `handleHeartbeat(m)`. -/
def Raft.handleHeartbeat (r : Raft) (m : Message) : Raft :=
  if m.term < r.Term then
    r.sendHeartbeatResponse m.fromId true
  else
    let r := { r with Lead := m.fromId, electionElapsed := 0 }
    r.sendHeartbeatResponse m.fromId false

/-- `handleRequestVote(m)`: term gate, then grant iff the vote slot is
free or already the sender's and the candidate log is up to date. -/
def Raft.handleRequestVote (r : Raft) (m : Message) : Option Raft :=
  if m.term < r.Term then
    some (r.sendRequestVoteResponse m.fromId true)
  else if r.Vote == 0 || r.Vote == m.fromId then
    match r.RaftLog.isUpToDate m.index m.logTerm with
    | none => none
    | some upToDate =>
      if upToDate then
        let r := { r with Vote := m.fromId, electionElapsed := 0 }
        some (r.sendRequestVoteResponse m.fromId false)
      else
        some (r.sendRequestVoteResponse m.fromId true)
  else
    some (r.sendRequestVoteResponse m.fromId true)

/-- `handleRequestVoteResponse(m)`: record the ballot, then decide on a
positive or negative quorum. -/
def Raft.handleRequestVoteResponse (r : Raft) (m : Message) : Option Raft :=
  let r := { r with votes := setVote r.votes m.fromId (!m.reject) }
  let granted : Nat := (r.votes.filter fun p => p.2).length
  let quorum : Nat := r.Prs.length / 2
  if quorum < granted then
    r.becomeLeader
  else if quorum < r.votes.length - granted then
    some (r.becomeFollower r.Term 0)
  else
    some r

/-- `doElection`: become candidate, short-circuit a size-1 cluster, and
solicit votes carrying the last index and its term. -/
def Raft.doElection (r : Raft) : Option Raft :=
  let r := r.becomeCandidate
  let r := { r with heartbeatElapsed := 0 }
  if r.Prs.length == 1 then
    r.becomeLeader
  else
    let lastIndex := r.RaftLog.LastIndex
    match termResultValue (r.RaftLog.Term lastIndex) with
    | none => none
    | some lastLogTerm =>
      some (r.Prs.foldl
        (fun acc p =>
          if p.1 ≠ acc.id then acc.sendRequestVote p.1 lastIndex lastLogTerm else acc)
        r)

/-- `appendEntries(ents)` (the propose path): stamp term and contiguous
indices, append, raise self progress, broadcast, and in a size-1
cluster commit self-match. -/
def Raft.appendEntries (r : Raft) (ents : List Entry) : Option Raft :=
  let lastIndex := r.RaftLog.LastIndex
  let stamped := ents.enum.map fun p =>
    { p.2 with term := r.Term, index := lastIndex + p.1 + 1 }
  let r := { r with
    RaftLog := { r.RaftLog with entries := r.RaftLog.entries ++ stamped } }
  match lookupPrs r.Prs r.id with
  | none => none
  | some _ =>
    let newMatch := r.RaftLog.LastIndex
    let r := { r with
      Prs := updatePrs r.Prs r.id fun _ => ⟨newMatch, newMatch + 1⟩ }
    match r.bcastAppend with
    | none => none
    | some r =>
      if r.Prs.length == 1 then
        match lookupPrs r.Prs r.id with
        | none => none
        | some pr =>
          some { r with RaftLog := { r.RaftLog with committed := pr.Match } }
      else
        some r

/-- `stepFollower`: message dispatch for a follower; message types
without a case (notably MsgPropose) fall through and leave the state
untouched. -/
def Raft.stepFollower (r : Raft) (m : Message) : Option Raft :=
  match m.msgType with
  | .hup => r.doElection
  | .append => r.handleAppendEntries m
  | .requestVote => r.handleRequestVote m
  | .heartbeat => some (r.handleHeartbeat m)
  | _ => some r

/-- `stepCandidate`: as `stepFollower`, plus vote tallying and the
equal-term demotion on MsgAppend / MsgHeartbeat. -/
def Raft.stepCandidate (r : Raft) (m : Message) : Option Raft :=
  match m.msgType with
  | .hup => r.doElection
  | .append =>
    let r := if m.term == r.Term then r.becomeFollower m.term m.fromId else r
    r.handleAppendEntries m
  | .requestVote => r.handleRequestVote m
  | .requestVoteResponse => r.handleRequestVoteResponse m
  | .heartbeat =>
    let r := if m.term == r.Term then r.becomeFollower m.term m.fromId else r
    some (r.handleHeartbeat m)
  | _ => some r

/-- `stepLeader`. -/
def Raft.stepLeader (r : Raft) (m : Message) : Option Raft :=
  match m.msgType with
  | .beat => some r.bcastHeartbeat
  | .propose => r.appendEntries m.entries
  | .append => r.handleAppendEntries m
  | .appendResponse => r.handleAppendEntriesResponse m
  | .requestVote => r.handleRequestVote m
  | .heartbeat => some (r.handleHeartbeat m)
  | .heartbeatResponse =>
    if !m.reject then (r.sendAppend m.fromId).map Prod.fst
    else some r
  | _ => some r

/-- `ErrProposalDropped` as declared in the source.  `Step` never
returns it: every per-role step's error is discarded (`_ = ...`) and
`Step` itself always answers nil. -/
inductive StepError where
  | proposalDropped
deriving DecidableEq

/-- `Step(m)`: ignore everything when absent from the peer set, catch up
to a higher term as a follower, then dispatch per role.  The second
component is the returned error — always `none` in this code. -/
def Raft.Step (r : Raft) (m : Message) : Option (Raft × Option StepError) :=
  match lookupPrs r.Prs r.id with
  | none => some (r, none)
  | some _ =>
    let r := if r.Term < m.term then r.becomeFollower m.term 0 else r
    let step :=
      match r.State with
      | .follower => r.stepFollower m
      | .candidate => r.stepCandidate m
      | .leader => r.stepLeader m
    match step with
    | none => none
    | some r' => some (r', none)

/-- The zero-value MsgHup a timeout self-injects. -/
def msgHup : Message := { msgType := .hup }

/-- The zero-value MsgBeat a heartbeat timeout self-injects. -/
def msgBeat : Message := { msgType := .beat }

/-- `tickElection`. -/
def Raft.tickElection (r : Raft) : Option Raft :=
  let r := { r with electionElapsed := r.electionElapsed + 1 }
  if r.randomizedElectionTimeout ≤ r.electionElapsed then
    let r := { r with electionElapsed := 0 }
    match r.Step msgHup with
    | none => none
    | some q => some q.1
  else
    some r

/-- `tickHeartbeat`. -/
def Raft.tickHeartbeat (r : Raft) : Option Raft :=
  let r := { r with heartbeatElapsed := r.heartbeatElapsed + 1 }
  if r.heartbeatTimeout ≤ r.heartbeatElapsed then
    let r := { r with heartbeatElapsed := 0 }
    match r.Step msgBeat with
    | none => none
    | some q => some q.1
  else
    some r

/-- `tick`: one logical clock tick, dispatched on the role. -/
def Raft.tick (r : Raft) : Option Raft :=
  match r.State with
  | .follower => r.tickElection
  | .candidate => r.tickElection
  | .leader => r.tickHeartbeat

/-! ### Concrete fixtures used by the counterexamples and traces -/

/-- A MemoryStorage-style empty stable log: a dummy entry at index 0 of
term 0, nothing else. -/
def st0 : Storage :=
  { firstIndex := 1
    lastIndex := 0
    term := fun i => if i = 0 then .ok 0 else .error .unavailable }

/-- Stable storage holding term-1 entries at indices 1..5. -/
def st5 : Storage :=
  { firstIndex := 1
    lastIndex := 5
    term := fun i => if i ≤ 5 then .ok (if i = 0 then 0 else 1) else .error .unavailable }

/-- A log whose in-memory tail is the single entry `(term 1, index 1)`. -/
def c3log : RaftLog :=
  { storage :=
      { firstIndex := 1
        lastIndex := 1
        term := fun i => if i ≤ 1 then .ok (if i = 0 then 0 else 1) else .error .unavailable }
    entries := [⟨1, 1, 0⟩]
    first := 1 }

/-- A log with an empty in-memory tail, a storage that answers
Unavailable everywhere, and a pending snapshot at index 3, term 7. -/
def c3snapLog : RaftLog :=
  { storage := { firstIndex := 5, lastIndex := 4, term := fun _ => .error .unavailable }
    entries := []
    pendingSnapshot := some ⟨3, 7⟩
    first := 5 }

/-- A log with tail 1..5 whose storage has already compacted up to
index 4, while `applied` is still 0. -/
def c5log : RaftLog :=
  { storage := { firstIndex := 4, lastIndex := 5, term := fun _ => .ok 1 }
    applied := 0
    entries := [⟨1, 1, 0⟩, ⟨1, 2, 0⟩, ⟨1, 3, 0⟩, ⟨1, 4, 0⟩, ⟨1, 5, 0⟩]
    first := 1 }

/-- A follower at term 1 with entries 1..5 (all term 1) and
`committed = 5`. -/
def c9r : Raft :=
  { id := 1
    Term := 1
    RaftLog :=
      { storage := st5
        committed := 5
        entries := [⟨1, 1, 0⟩, ⟨1, 2, 0⟩, ⟨1, 3, 0⟩, ⟨1, 4, 0⟩, ⟨1, 5, 0⟩]
        first := 1 }
    Prs := [(1, {}), (2, {})]
    State := .follower }

/-- A stale same-term MsgAppend: previous index 2, no entries, but a
commit field of 10 — its commit exceeds `index + |entries|`. -/
def c9m : Message :=
  { msgType := .append
    toId := 1
    fromId := 2
    term := 1
    logTerm := 1
    index := 2
    entries := []
    commit := 10 }

/-- A 3-peer leader at term 1 with one own-term entry at index 1, not
yet committed; its own progress is (1, 2), the two followers' (0, 1). -/
def c2r : Raft :=
  { id := 1
    Term := 1
    RaftLog := { storage := st0, entries := [⟨1, 1, 0⟩], first := 1 }
    Prs := [(1, ⟨1, 2⟩), (2, ⟨0, 1⟩), (3, ⟨0, 1⟩)]
    State := .leader }

/-- Peer 2's accepting MsgAppendResponse for index 1 at term 1. -/
def c2m : Message :=
  { msgType := .appendResponse
    toId := 1
    fromId := 2
    term := 1
    index := 1 }

/-- A follower at term 3 with an empty log. -/
def c4r : Raft :=
  { id := 1
    Term := 3
    RaftLog := { storage := st0, first := 1 }
    Prs := [(1, {}), (2, {})]
    State := .follower }

/-- A local MsgPropose carrying one payload entry. -/
def c4m : Message := { msgType := .propose, entries := [⟨0, 0, 7⟩] }

/-- A follower at term 1 with 3 elapsed election ticks and one term-1
entry in its log. -/
def c7r : Raft :=
  { id := 1
    Term := 1
    Vote := 0
    RaftLog := { storage := st0, entries := [⟨1, 1, 0⟩], first := 1 }
    Prs := [(1, {}), (2, {}), (3, {})]
    State := .follower
    electionTimeout := 10
    electionElapsed := 3
    randSrc := [4] }

/-- A higher-term MsgRequestVote whose candidate log (index 0, term 0)
is stale with respect to `c7r`'s log. -/
def c7m : Message :=
  { msgType := .requestVote
    toId := 1
    fromId := 3
    term := 2
    logTerm := 0
    index := 0 }

/-- A fresh three-peer follower at term 0 with an empty log. -/
def c1r0 : Raft :=
  { id := 1
    Term := 0
    RaftLog := { storage := st0, first := 1 }
    Prs := [(1, {}), (2, {}), (3, {})]
    State := .follower
    electionTimeout := 10
    randSrc := [0, 1, 2] }

/-- An equal-term (term 1) MsgAppend from peer 2 with empty entries. -/
def c1mAppend : Message :=
  { msgType := .append
    toId := 1
    fromId := 2
    term := 1
    logTerm := 0
    index := 0
    entries := []
    commit := 0 }

/-- A term-1 MsgRequestVote from peer 3 with an empty candidate log. -/
def c1mVote : Message :=
  { msgType := .requestVote
    toId := 1
    fromId := 3
    term := 1
    logTerm := 0
    index := 0 }

/-- `c1r0` after the MsgHup. -/
def c1s1 : Option (Raft × Option StepError) := c1r0.Step msgHup

/-- ... after additionally the equal-term MsgAppend from peer 2. -/
def c1s2 : Option (Raft × Option StepError) :=
  c1s1.bind fun p => p.1.Step c1mAppend

/-- ... after additionally the MsgRequestVote from peer 3. -/
def c1s3 : Option (Raft × Option StepError) :=
  c1s2.bind fun p => p.1.Step c1mVote

/-- A follower at term 1 with entries 1..5 (all term 1) and
`committed = 2`, used to witness the accepted-append commit rule. -/
def c6r : Raft :=
  { id := 1
    Term := 1
    RaftLog :=
      { storage := st5
        committed := 2
        entries := [⟨1, 1, 0⟩, ⟨1, 2, 0⟩, ⟨1, 3, 0⟩, ⟨1, 4, 0⟩, ⟨1, 5, 0⟩]
        first := 1 }
    Prs := [(1, {}), (2, {})]
    State := .follower }

/-- A well-formed same-term MsgAppend: previous index 3, no entries,
commit 4 (within the span the message vouches for, as sent leaders do
not exceed). -/
def c6m : Message :=
  { msgType := .append
    toId := 1
    fromId := 2
    term := 1
    logTerm := 1
    index := 3
    entries := []
    commit := 4 }

/-- A follower at term 2 whose log is `(1,1) (1,2) (2,3)`. -/
def c8r : Raft :=
  { id := 1
    Term := 2
    RaftLog :=
      { storage := st0
        entries := [⟨1, 1, 0⟩, ⟨1, 2, 0⟩, ⟨2, 3, 0⟩]
        first := 1 }
    Prs := [(1, {}), (2, {})]
    State := .follower }

/-- A MsgAppend whose previous index 9 lies beyond `c8r`'s last index. -/
def c8m1 : Message :=
  { msgType := .append
    toId := 1
    fromId := 2
    term := 2
    logTerm := 2
    index := 9 }

/-- A MsgAppend whose previous term 3 conflicts with `c8r`'s term 2 at
index 3. -/
def c8m2 : Message :=
  { msgType := .append
    toId := 1
    fromId := 2
    term := 2
    logTerm := 3
    index := 3 }

/-! ### Supporting lemmas -/

/-- A successful `sendAppend` only appends to the outbound buffer. -/
lemma sendAppend_shape {r : Raft} {toId : Nat} {r' : Raft} {b : Bool}
    (h : r.sendAppend toId = some (r', b)) :
    ∃ ms, r' = { r with msgs := ms } := by
  unfold Raft.sendAppend at h
  split at h
  · exact absurd h (by simp)
  · split at h
    · simp only [Option.some.injEq, Prod.mk.injEq] at h
      exact ⟨r.msgs, h.1.symm⟩
    · exact absurd h (by simp)
    · exact absurd h (by simp)
    · split at h
      · exact absurd h (by simp)
      · simp only [Option.some.injEq, Prod.mk.injEq] at h
        exact ⟨_, h.1.symm⟩

/-- The `bcastAppend` loop only appends to the outbound buffer. -/
lemma bcastAppendAux_shape :
    ∀ (l : List (Nat × Progress)) (r r' : Raft),
      bcastAppendAux r l = some r' → ∃ ms, r' = { r with msgs := ms } := by
  intro l
  induction l with
  | nil =>
    intro r r' h
    exact ⟨r.msgs, by injection h with h1; exact h1.symm⟩
  | cons p rest ih =>
    intro r r' h
    unfold bcastAppendAux at h
    split at h
    · split at h
      · exact absurd h (by simp)
      · next q hs =>
        obtain ⟨ms1, hq⟩ := sendAppend_shape ((Prod.mk.eta (p := q)) ▸ hs)
        obtain ⟨ms2, hr⟩ := ih q.1 r' h
        exact ⟨ms2, by rw [hr, hq]⟩
    · exact ih r r' h

/-- `bcastAppend` only appends to the outbound buffer. -/
lemma bcastAppend_shape {r r' : Raft} (h : r.bcastAppend = some r') :
    ∃ ms, r' = { r with msgs := ms } :=
  bcastAppendAux_shape r.Prs r r' h

/-- The entry-merge loop never touches the commit cursor. -/
lemma mergeEntries_committed :
    ∀ (es : List Entry) (l l' : RaftLog),
      mergeEntries l es = some l' → l'.committed = l.committed := by
  intro es
  induction es with
  | nil =>
    intro l l' h
    injection h with h1; rw [← h1]
  | cons ent rest ih =>
    intro l l' h
    unfold mergeEntries at h
    repeat' split at h
    all_goals first
      | exact (ih _ l' h).trans rfl
      | exact Option.noConfusion h
      | (injection h with h1; rw [← h1])

/-- The binary-search loop of Go's `sort.Search`, on a predicate that is
monotone on `[i, j)`, returns the least index of `[i, j)` satisfying it
(or `j` when none does): the result is in `[i, j]`, everything below it
fails the predicate, and it satisfies the predicate unless it is `j`. -/
lemma sortSearchAux_spec (f : Nat → Bool) :
    ∀ (n i j : Nat), j - i ≤ n → i ≤ j →
      (∀ a b, i ≤ a → a ≤ b → b < j → f a = true → f b = true) →
      i ≤ sortSearchAux f i j ∧ sortSearchAux f i j ≤ j
        ∧ (∀ k, i ≤ k → k < sortSearchAux f i j → f k = false)
        ∧ (sortSearchAux f i j < j → f (sortSearchAux f i j) = true) := by
  intro n
  induction n with
  | zero =>
    intro i j hn hij _
    have hji : j = i := by omega
    subst hji
    unfold sortSearchAux
    rw [dif_neg (lt_irrefl j)]
    exact ⟨le_refl _, le_refl _,
      fun k h1 h2 => absurd h2 (by omega),
      fun hr => absurd hr (lt_irrefl j)⟩
  | succ n ih =>
    intro i j hn hij hmono
    unfold sortSearchAux
    by_cases hlt : i < j
    · rw [dif_pos hlt]
      have hmi : i ≤ (i + j) / 2 := by omega
      have hmj : (i + j) / 2 < j := by omega
      by_cases hfm : f ((i + j) / 2) = true
      · rw [if_pos hfm]
        obtain ⟨h1, h2, h3, h4⟩ := ih i ((i + j) / 2) (by omega) hmi
          (fun a b ha hab hb hfa => hmono a b ha hab (lt_trans hb hmj) hfa)
        refine ⟨h1, le_trans h2 (le_of_lt hmj), h3, fun _ => ?_⟩
        rcases lt_or_eq_of_le h2 with hlt2 | heq
        · exact h4 hlt2
        · rw [heq]; exact hfm
      · rw [if_neg hfm]
        obtain ⟨h1, h2, h3, h4⟩ := ih ((i + j) / 2 + 1) j (by omega) (by omega)
          (fun a b ha hab hb hfa => hmono a b (by omega) hab hb hfa)
        refine ⟨by omega, h2, ?_, h4⟩
        intro k hk1 hk2
        by_cases hkm : k ≤ (i + j) / 2
        · cases hfk : f k
          · rfl
          · exact absurd (hmono k ((i + j) / 2) hk1 hkm hmj hfk) hfm
        · exact h3 k (by omega) hk2
    · rw [dif_neg hlt]
      exact ⟨le_refl _, by omega,
        fun k h1 h2 => absurd h2 (by omega),
        fun hr => absurd hr (by omega)⟩

/-- `sort.Search(n, f)` on a monotone predicate: least witness below
`n`, or `n`. -/
lemma sortSearch_spec (n : Nat) (f : Nat → Bool)
    (hmono : ∀ a b, a ≤ b → b < n → f a = true → f b = true) :
    sortSearch n f ≤ n
      ∧ (∀ k, k < sortSearch n f → f k = false)
      ∧ (sortSearch n f < n → f (sortSearch n f) = true) := by
  obtain ⟨_, h2, h3, h4⟩ := sortSearchAux_spec f n 0 n (by omega) (Nat.zero_le n)
    (fun a b _ hab hb hfa => hmono a b hab hb hfa)
  exact ⟨h2, fun k hk => h3 k (Nat.zero_le k) hk, h4⟩

/-- Looking up the updated key returns the updated record. -/
lemma lookupPrs_updatePrs_self (prs : List (Nat × Progress)) (id : Nat)
    (f : Progress → Progress) :
    lookupPrs (updatePrs prs id f) id = (lookupPrs prs id).map f := by
  induction prs with
  | nil => rfl
  | cons p rest ih =>
    by_cases hp : p.1 = id
    · simp [updatePrs, lookupPrs, List.find?_cons, hp]
    · have hp' : (p.1 == id) = false := by simpa using hp
      simp only [updatePrs, lookupPrs, List.map_cons, List.find?_cons, hp',
        if_false, Bool.false_eq_true] at ih ⊢
      simpa [hp'] using ih

/-- Looking up `id` in the progress map rebuilt by `becomeLeader`. -/
lemma lookupPrs_map_if (prs : List (Nat × Progress)) (id : Nat)
    (A : Progress) (B : Nat × Progress → Progress) :
    lookupPrs (prs.map fun p => if p.1 == id then (p.1, A) else (p.1, B p)) id
      = (lookupPrs prs id).map fun _ => A := by
  induction prs with
  | nil => rfl
  | cons p rest ih =>
    by_cases hp : p.1 = id
    · simp [lookupPrs, List.find?_cons, hp]
    · have hp' : (p.1 == id) = false := by simpa using hp
      simp only [lookupPrs, List.map_cons, List.find?_cons, hp', if_false,
        Bool.false_eq_true] at ih ⊢
      simpa [hp'] using ih

/-- The vote-solicitation fold of `doElection` only appends messages. -/
lemma foldlRequestVote_shape (li lt : Nat) :
    ∀ (l : List (Nat × Progress)) (r : Raft),
      ∃ ms, (l.foldl (fun acc p =>
          if p.1 ≠ acc.id then acc.sendRequestVote p.1 li lt else acc) r)
        = { r with msgs := ms } := by
  intro l
  induction l with
  | nil => exact fun r => ⟨r.msgs, rfl⟩
  | cons p rest ih =>
    intro r
    simp only [List.foldl_cons]
    by_cases hp : p.1 ≠ r.id
    · rw [if_pos hp]
      obtain ⟨ms, hms⟩ := ih (r.sendRequestVote p.1 li lt)
      exact ⟨ms, hms⟩
    · rw [if_neg hp]
      exact ih r

/-- The heartbeat-broadcast fold only appends messages. -/
lemma foldlHeartbeat_shape :
    ∀ (l : List (Nat × Progress)) (r : Raft),
      ∃ ms, (l.foldl (fun acc p =>
          if acc.id ≠ p.1 then acc.sendHeartbeat p.1 else acc) r)
        = { r with msgs := ms } := by
  intro l
  induction l with
  | nil => exact fun r => ⟨r.msgs, rfl⟩
  | cons p rest ih =>
    intro r
    simp only [List.foldl_cons]
    by_cases hp : r.id ≠ p.1
    · rw [if_pos hp]
      obtain ⟨ms, hms⟩ := ih (r.sendHeartbeat p.1)
      exact ⟨ms, hms⟩
    · rw [if_neg hp]
      exact ih r

/-- `bcastHeartbeat` only appends messages. -/
lemma bcastHeartbeat_shape (r : Raft) :
    ∃ ms, r.bcastHeartbeat = { r with msgs := ms } :=
  foldlHeartbeat_shape r.Prs r

/-- Appending the stamped proposal entries never lowers `LastIndex`. -/
lemma LastIndex_append_stamped (l : RaftLog) (T L : Nat) (hL : l.LastIndex = L)
    (ents : List Entry) :
    L ≤ ({ l with entries := l.entries ++ ents.enum.map fun p =>
        { p.2 with term := T, index := L + p.1 + 1 } } : RaftLog).LastIndex := by
  cases ents with
  | nil => simpa using le_of_eq hL.symm
  | cons e rest =>
    conv_rhs => unfold RaftLog.LastIndex
    rw [List.getLast?_append, List.getLast?_map, List.getLast?_eq_getElem?,
      List.getElem?_enum]
    have hlen : (e :: rest).length - 1 < (e :: rest).length := by simp
    rw [List.enum_length, List.getElem?_eq_getElem hlen]
    simp only [Option.map_some, Option.or_some]
    refine le_trans ?_ (le_max_left _ _)
    simp only [List.length_cons, Nat.add_sub_cancel]
    omega

/-- `becomeLeader` keeps the Term, and (when `committed ≤ LastIndex`)
never lowers the commit cursor. -/
lemma becomeLeader_spec {r r' : Raft} (h : r.becomeLeader = some r') :
    r'.Term = r.Term ∧
    (r.RaftLog.committed ≤ r.RaftLog.LastIndex →
      r.RaftLog.committed ≤ r'.RaftLog.committed) := by
  unfold Raft.becomeLeader at h
  dsimp only [] at h
  split at h
  · exact Option.noConfusion h
  next rb hb =>
    obtain ⟨ms, hms⟩ := bcastAppend_shape hb
    subst hms
    split at h
    · split at h
      · exact Option.noConfusion h
      next pr hpr =>
      injection h with h1
      subst h1
      refine ⟨rfl, fun hcl => ?_⟩
      rw [show lookupPrs
          (({ r with State := StateType.leader, Lead := r.id, heartbeatElapsed := 0
              : Raft }).Prs.map fun p =>
            if p.1 == r.id then
              (p.1, (⟨r.RaftLog.LastIndex + 1, r.RaftLog.LastIndex + 2⟩ : Progress))
            else (p.1, (⟨p.2.Match, r.RaftLog.LastIndex + 1⟩ : Progress))) r.id
          = (lookupPrs r.Prs r.id).map
              (fun _ => (⟨r.RaftLog.LastIndex + 1, r.RaftLog.LastIndex + 2⟩ : Progress))
        from lookupPrs_map_if r.Prs r.id
          ⟨r.RaftLog.LastIndex + 1, r.RaftLog.LastIndex + 2⟩
          (fun p => ⟨p.2.Match, r.RaftLog.LastIndex + 1⟩)] at hpr
      cases hq : lookupPrs r.Prs r.id with
      | none => rw [hq] at hpr; exact Option.noConfusion hpr
      | some q =>
        rw [hq] at hpr
        injection hpr with hpr1
        have : pr.Match = r.RaftLog.LastIndex + 1 := by rw [← hpr1]
        show r.RaftLog.committed ≤ pr.Match
        omega
    · injection h with h1
      subst h1
      exact ⟨rfl, fun _ => le_refl _⟩

/-- `doElection` raises the Term by one and (when
`committed ≤ LastIndex`) never lowers the commit cursor. -/
lemma doElection_spec {r r' : Raft} (h : r.doElection = some r') :
    r'.Term = r.Term + 1 ∧
    (r.RaftLog.committed ≤ r.RaftLog.LastIndex →
      r.RaftLog.committed ≤ r'.RaftLog.committed) := by
  unfold Raft.doElection at h
  dsimp only [] at h
  split at h
  · obtain ⟨ht, hc⟩ := becomeLeader_spec h
    exact ⟨ht, hc⟩
  · split at h
    · exact Option.noConfusion h
    · injection h with h1
      subst h1
      obtain ⟨ms, hms⟩ := foldlRequestVote_shape _ _ _ _
      rw [hms]
      exact ⟨rfl, fun _ => le_refl _⟩

/-- `handleRequestVote` changes neither Term nor log. -/
lemma handleRequestVote_spec {r : Raft} {m : Message} {r' : Raft}
    (h : r.handleRequestVote m = some r') :
    r'.Term = r.Term ∧ r'.RaftLog = r.RaftLog := by
  unfold Raft.handleRequestVote at h
  repeat' split at h
  all_goals first
    | exact Option.noConfusion h
    | (injection h with h1; subst h1; exact ⟨rfl, rfl⟩)

/-- `handleHeartbeat` changes neither Term nor log. -/
lemma handleHeartbeat_spec (r : Raft) (m : Message) :
    (r.handleHeartbeat m).Term = r.Term ∧ (r.handleHeartbeat m).RaftLog = r.RaftLog := by
  unfold Raft.handleHeartbeat
  split <;> exact ⟨rfl, rfl⟩

/-- `handleRequestVoteResponse` keeps the Term and (when
`committed ≤ LastIndex`) never lowers the commit cursor. -/
lemma handleRequestVoteResponse_spec {r : Raft} {m : Message} {r' : Raft}
    (h : r.handleRequestVoteResponse m = some r') :
    r'.Term = r.Term ∧
    (r.RaftLog.committed ≤ r.RaftLog.LastIndex →
      r.RaftLog.committed ≤ r'.RaftLog.committed) := by
  unfold Raft.handleRequestVoteResponse at h
  dsimp only [] at h
  split at h
  · obtain ⟨ht, hc⟩ := becomeLeader_spec h
    exact ⟨ht, hc⟩
  · split at h
    · injection h with h1
      subst h1
      exact ⟨rfl, fun _ => le_refl _⟩
    · injection h with h1
      subst h1
      exact ⟨rfl, fun _ => le_refl _⟩

/-- `handleAppendEntries` keeps the Term, and never lowers the commit
cursor provided the message's commit does not exceed
`prevIndex + |entries|`. -/
lemma handleAppendEntries_spec {r : Raft} {m : Message} {r' : Raft}
    (h : r.handleAppendEntries m = some r') :
    r'.Term = r.Term ∧
    (m.commit ≤ m.index + m.entries.length →
      r.RaftLog.committed ≤ r'.RaftLog.committed) := by
  unfold Raft.handleAppendEntries at h
  dsimp only [] at h
  repeat' split at h
  all_goals first
    | exact Option.noConfusion h
    | (injection h with h1; subst h1; exact ⟨rfl, fun _ => le_refl _⟩)
    | (injection h with h1; subst h1;
       refine ⟨rfl, fun hb => ?_⟩;
       have hc := mergeEntries_committed _ _ _ (by assumption);
       simp only [Raft.sendAppendResponse];
       omega)

/-- `leaderCommit` keeps the Term and never lowers the commit cursor. -/
lemma leaderCommit_spec {r r' : Raft} (h : r.leaderCommit = some r') :
    r'.Term = r.Term ∧ r.RaftLog.committed ≤ r'.RaftLog.committed := by
  unfold Raft.leaderCommit at h
  dsimp only [] at h
  repeat' split at h
  all_goals first
    | exact Option.noConfusion h
    | (injection h with h1; subst h1; exact ⟨rfl, le_refl _⟩)
    | (obtain ⟨ms, hms⟩ := bcastAppend_shape h; subst hms;
       exact ⟨rfl, le_of_lt (by assumption)⟩)

/-- `handleAppendEntriesResponse` keeps the Term and never lowers the
commit cursor. -/
lemma handleAppendEntriesResponse_spec {r : Raft} {m : Message} {r' : Raft}
    (h : r.handleAppendEntriesResponse m = some r') :
    r'.Term = r.Term ∧ r.RaftLog.committed ≤ r'.RaftLog.committed := by
  unfold Raft.handleAppendEntriesResponse at h
  dsimp only [] at h
  split at h
  · injection h with h1; subst h1; exact ⟨rfl, le_refl _⟩
  · split at h
    · split at h
      · injection h with h1; subst h1; exact ⟨rfl, le_refl _⟩
      · split at h
        · exact Option.noConfusion h
        · split at h
          · exact Option.noConfusion h
          next q heq =>
            injection h with h1
            subst h1
            obtain ⟨ms, hms⟩ := sendAppend_shape ((Prod.mk.eta (p := q)) ▸ heq)
            rw [hms]
            exact ⟨rfl, le_refl _⟩
    · split at h
      · exact Option.noConfusion h
      · split at h
        · obtain ⟨ht, hc⟩ := leaderCommit_spec h
          exact ⟨ht, hc⟩
        · injection h with h1; subst h1; exact ⟨rfl, le_refl _⟩

/-- `appendEntries` (propose) keeps the Term, and (when
`committed ≤ LastIndex`) never lowers the commit cursor. -/
lemma appendEntries_spec {r : Raft} {ents : List Entry} {r' : Raft}
    (h : r.appendEntries ents = some r') :
    r'.Term = r.Term ∧
    (r.RaftLog.committed ≤ r.RaftLog.LastIndex →
      r.RaftLog.committed ≤ r'.RaftLog.committed) := by
  unfold Raft.appendEntries at h
  dsimp only [] at h
  split at h
  · exact Option.noConfusion h
  next pr0 hpr0 =>
    split at h
    · exact Option.noConfusion h
    next rb hbc =>
      obtain ⟨ms, hms⟩ := bcastAppend_shape hbc
      subst hms
      split at h
      · split at h
        · exact Option.noConfusion h
        next pr hpr =>
          injection h with h1
          subst h1
          refine ⟨rfl, fun hcl => ?_⟩
          rw [lookupPrs_updatePrs_self r.Prs r.id _] at hpr
          cases hq : lookupPrs r.Prs r.id with
          | none => rw [hq] at hpr; exact Option.noConfusion hpr
          | some q =>
            rw [hq] at hpr
            injection hpr with hpr1
            have hle := LastIndex_append_stamped r.RaftLog r.Term r.RaftLog.LastIndex rfl ents
            have hM := congrArg Progress.Match hpr1
            show r.RaftLog.committed ≤ pr.Match
            rw [← hM]
            exact le_trans hcl hle
      · injection h with h1
        subst h1
        exact ⟨rfl, fun _ => le_refl _⟩

/-- `stepFollower`: Term never decreases; the commit cursor never
decreases given the append-commit bound and `committed ≤ LastIndex`. -/
lemma stepFollower_spec {r : Raft} {m : Message} {r' : Raft}
    (h : r.stepFollower m = some r') :
    r.Term ≤ r'.Term ∧
    ((m.msgType = .append → m.commit ≤ m.index + m.entries.length) →
      r.RaftLog.committed ≤ r.RaftLog.LastIndex →
      r.RaftLog.committed ≤ r'.RaftLog.committed) := by
  unfold Raft.stepFollower at h
  split at h
  · obtain ⟨ht, hc⟩ := doElection_spec h
    exact ⟨by omega, fun _ hcl => hc hcl⟩
  next heq =>
    obtain ⟨ht, hc⟩ := handleAppendEntries_spec h
    exact ⟨le_of_eq ht.symm, fun hb _ => hc (hb heq)⟩
  · obtain ⟨ht, hlog⟩ := handleRequestVote_spec h
    exact ⟨le_of_eq ht.symm, fun _ _ => le_of_eq (congrArg RaftLog.committed hlog).symm⟩
  · injection h with h1
    subst h1
    exact ⟨le_of_eq (handleHeartbeat_spec r m).1.symm,
      fun _ _ => le_of_eq (congrArg RaftLog.committed (handleHeartbeat_spec r m).2).symm⟩
  · injection h with h1
    subst h1
    exact ⟨le_refl _, fun _ _ => le_refl _⟩

/-- `stepCandidate`: Term never decreases; the commit cursor never
decreases given the append-commit bound and `committed ≤ LastIndex`. -/
lemma stepCandidate_spec {r : Raft} {m : Message} {r' : Raft}
    (h : r.stepCandidate m = some r') :
    r.Term ≤ r'.Term ∧
    ((m.msgType = .append → m.commit ≤ m.index + m.entries.length) →
      r.RaftLog.committed ≤ r.RaftLog.LastIndex →
      r.RaftLog.committed ≤ r'.RaftLog.committed) := by
  unfold Raft.stepCandidate at h
  dsimp only [] at h
  split at h
  · obtain ⟨ht, hc⟩ := doElection_spec h
    exact ⟨by omega, fun _ hcl => hc hcl⟩
  next heq =>
    split at h
    next hbeq =>
      obtain ⟨ht, hc⟩ := handleAppendEntries_spec h
      have ht' : r'.Term = m.term := ht
      have hmt : m.term = r.Term := eq_of_beq hbeq
      exact ⟨le_of_eq (by rw [ht', hmt]), fun hb _ => hc (hb heq)⟩
    · obtain ⟨ht, hc⟩ := handleAppendEntries_spec h
      exact ⟨le_of_eq ht.symm, fun hb _ => hc (hb heq)⟩
  · obtain ⟨ht, hlog⟩ := handleRequestVote_spec h
    exact ⟨le_of_eq ht.symm, fun _ _ => le_of_eq (congrArg RaftLog.committed hlog).symm⟩
  · obtain ⟨ht, hc⟩ := handleRequestVoteResponse_spec h
    exact ⟨le_of_eq ht.symm, fun _ hcl => hc hcl⟩
  · split at h
    next hbeq =>
      injection h with h1
      subst h1
      have hmt : m.term = r.Term := eq_of_beq hbeq
      constructor
      · have ht' : ((r.becomeFollower m.term m.fromId).handleHeartbeat m).Term = m.term :=
          (handleHeartbeat_spec (r.becomeFollower m.term m.fromId) m).1
        rw [ht', hmt]
      · intro _ _
        have hlog := (handleHeartbeat_spec (r.becomeFollower m.term m.fromId) m).2
        have hcc : ((r.becomeFollower m.term m.fromId).handleHeartbeat m).RaftLog.committed
            = r.RaftLog.committed := by rw [hlog]; rfl
        exact le_of_eq hcc.symm
    · injection h with h1
      subst h1
      exact ⟨le_of_eq (handleHeartbeat_spec r m).1.symm,
        fun _ _ => le_of_eq (congrArg RaftLog.committed (handleHeartbeat_spec r m).2).symm⟩
  · injection h with h1
    subst h1
    exact ⟨le_refl _, fun _ _ => le_refl _⟩

/-- `stepLeader`: Term never decreases; the commit cursor never
decreases given the append-commit bound and `committed ≤ LastIndex`. -/
lemma stepLeader_spec {r : Raft} {m : Message} {r' : Raft}
    (h : r.stepLeader m = some r') :
    r.Term ≤ r'.Term ∧
    ((m.msgType = .append → m.commit ≤ m.index + m.entries.length) →
      r.RaftLog.committed ≤ r.RaftLog.LastIndex →
      r.RaftLog.committed ≤ r'.RaftLog.committed) := by
  unfold Raft.stepLeader at h
  split at h
  · injection h with h1
    subst h1
    obtain ⟨ms, hms⟩ := bcastHeartbeat_shape r
    rw [hms]
    exact ⟨le_refl _, fun _ _ => le_refl _⟩
  · obtain ⟨ht, hc⟩ := appendEntries_spec h
    exact ⟨le_of_eq ht.symm, fun _ hcl => hc hcl⟩
  next heq =>
    obtain ⟨ht, hc⟩ := handleAppendEntries_spec h
    exact ⟨le_of_eq ht.symm, fun hb _ => hc (hb heq)⟩
  · obtain ⟨ht, hc⟩ := handleAppendEntriesResponse_spec h
    exact ⟨le_of_eq ht.symm, fun _ _ => hc⟩
  · obtain ⟨ht, hlog⟩ := handleRequestVote_spec h
    exact ⟨le_of_eq ht.symm, fun _ _ => le_of_eq (congrArg RaftLog.committed hlog).symm⟩
  · injection h with h1
    subst h1
    exact ⟨le_of_eq (handleHeartbeat_spec r m).1.symm,
      fun _ _ => le_of_eq (congrArg RaftLog.committed (handleHeartbeat_spec r m).2).symm⟩
  · split at h
    · cases hs : r.sendAppend m.fromId with
      | none => rw [hs] at h; exact Option.noConfusion h
      | some q =>
        rw [hs] at h
        injection h with h1
        subst h1
        obtain ⟨ms, hms⟩ := sendAppend_shape ((Prod.mk.eta (p := q)) ▸ hs)
        rw [hms]
        exact ⟨le_refl _, fun _ _ => le_refl _⟩
    · injection h with h1
      subst h1
      exact ⟨le_refl _, fun _ _ => le_refl _⟩
  · injection h with h1
    subst h1
    exact ⟨le_refl _, fun _ _ => le_refl _⟩

/-- `Step`: Term never decreases; the commit cursor never decreases
given the append-commit bound and `committed ≤ LastIndex`. -/
lemma Step_spec {r : Raft} {m : Message} {r' : Raft} {e : Option StepError}
    (h : r.Step m = some (r', e)) :
    r.Term ≤ r'.Term ∧
    ((m.msgType = .append → m.commit ≤ m.index + m.entries.length) →
      r.RaftLog.committed ≤ r.RaftLog.LastIndex →
      r.RaftLog.committed ≤ r'.RaftLog.committed) := by
  unfold Raft.Step at h
  dsimp only [] at h
  split at h
  · simp only [Option.some.injEq, Prod.mk.injEq] at h
    obtain ⟨h1, _⟩ := h
    subst h1
    exact ⟨le_refl _, fun _ _ => le_refl _⟩
  · split at h
    · exact Option.noConfusion h
    next r2 heq =>
      simp only [Option.some.injEq, Prod.mk.injEq] at h
      obtain ⟨h1, _⟩ := h
      subst h1
      by_cases hlt : r.Term < m.term
      · rw [if_pos hlt] at heq
        obtain ⟨ht, hc⟩ := stepFollower_spec heq
        exact ⟨le_trans (le_of_lt hlt) ht, fun hb hcl => hc hb hcl⟩
      · rw [if_neg hlt] at heq
        split at heq
        · obtain ⟨ht, hc⟩ := stepFollower_spec heq
          exact ⟨ht, hc⟩
        · obtain ⟨ht, hc⟩ := stepCandidate_spec heq
          exact ⟨ht, hc⟩
        · obtain ⟨ht, hc⟩ := stepLeader_spec heq
          exact ⟨ht, hc⟩

/-- `tickElection`: Term never decreases; the commit cursor never
decreases when `committed ≤ LastIndex`. -/
lemma tickElection_spec {r r' : Raft} (h : r.tickElection = some r') :
    r.Term ≤ r'.Term ∧
    (r.RaftLog.committed ≤ r.RaftLog.LastIndex →
      r.RaftLog.committed ≤ r'.RaftLog.committed) := by
  unfold Raft.tickElection at h
  dsimp only [] at h
  split at h
  · split at h
    · exact Option.noConfusion h
    next q heq =>
      injection h with h1
      subst h1
      obtain ⟨ht, hc⟩ := Step_spec ((Prod.mk.eta (p := q)) ▸ heq)
      exact ⟨ht, fun hcl => hc (fun habs => absurd habs (by decide)) hcl⟩
  · injection h with h1
    subst h1
    exact ⟨le_refl _, fun _ => le_refl _⟩

/-- `tickHeartbeat`: Term never decreases; the commit cursor never
decreases when `committed ≤ LastIndex`. -/
lemma tickHeartbeat_spec {r r' : Raft} (h : r.tickHeartbeat = some r') :
    r.Term ≤ r'.Term ∧
    (r.RaftLog.committed ≤ r.RaftLog.LastIndex →
      r.RaftLog.committed ≤ r'.RaftLog.committed) := by
  unfold Raft.tickHeartbeat at h
  dsimp only [] at h
  split at h
  · split at h
    · exact Option.noConfusion h
    next q heq =>
      injection h with h1
      subst h1
      obtain ⟨ht, hc⟩ := Step_spec ((Prod.mk.eta (p := q)) ▸ heq)
      exact ⟨ht, fun hcl => hc (fun habs => absurd habs (by decide)) hcl⟩
  · injection h with h1
    subst h1
    exact ⟨le_refl _, fun _ => le_refl _⟩

/-- `tick`: Term never decreases; the commit cursor never decreases
when `committed ≤ LastIndex`. -/
lemma tick_spec {r r' : Raft} (h : r.tick = some r') :
    r.Term ≤ r'.Term ∧
    (r.RaftLog.committed ≤ r.RaftLog.LastIndex →
      r.RaftLog.committed ≤ r'.RaftLog.committed) := by
  unfold Raft.tick at h
  split at h
  · exact tickElection_spec h
  · exact tickElection_spec h
  · exact tickHeartbeat_spec h

/-- When every non-self peer's previous index resolves to a term (and
its slice cut is in range), the `bcastAppend` loop succeeds, only
appends messages, and queues a MsgAppend carrying the current commit to
every non-self peer of the iterated list. -/
lemma bcastAppendAux_sends :
    ∀ (l : List (Nat × Progress)) (r : Raft),
      (∀ pid pr, (pid, pr) ∈ l → pid ≠ r.id →
        ∃ prL, lookupPrs r.Prs pid = some prL
          ∧ (∃ t, r.RaftLog.Term (prL.Next - 1) = .ok t)
          ∧ ¬ prL.Next - 1 + 1 < r.RaftLog.first) →
      ∃ ms, bcastAppendAux r l = some { r with msgs := r.msgs ++ ms }
        ∧ ∀ pid pr, (pid, pr) ∈ l → pid ≠ r.id →
          ∃ mg, mg ∈ ms ∧ mg.msgType = .append ∧ mg.toId = pid
            ∧ mg.commit = r.RaftLog.committed := by
  intro l
  induction l with
  | nil =>
    intro r _
    refine ⟨[], by rw [List.append_nil]; rfl, ?_⟩
    intro pid pr hmem
    exact absurd hmem (List.not_mem_nil _)
  | cons p rest ih =>
    intro r hsend
    by_cases hp : r.id ≠ p.1
    · obtain ⟨prL, hl, ⟨t, hT⟩, hslice⟩ :=
        hsend p.1 p.2 (List.mem_cons_self p rest) (Ne.symm hp)
      have hsa : r.sendAppend p.1 = some ({ r with msgs := r.msgs ++
          [mkAppendMsg r p.1 (prL.Next - 1) t (prL.Next - 1 + 1 - r.RaftLog.first)] },
          true) := by
        unfold Raft.sendAppend RaftLog.toSliceIndex
        rw [hl]
        dsimp only []
        rw [hT]
        dsimp only []
        rw [if_neg hslice]
      have hstep : bcastAppendAux r (p :: rest)
          = bcastAppendAux { r with msgs := r.msgs ++
              [mkAppendMsg r p.1 (prL.Next - 1) t (prL.Next - 1 + 1 - r.RaftLog.first)] }
            rest := by
        conv_lhs => unfold bcastAppendAux
        rw [if_pos hp, hsa]
      obtain ⟨ms', hms', hcov⟩ := ih { r with msgs := r.msgs ++
          [mkAppendMsg r p.1 (prL.Next - 1) t (prL.Next - 1 + 1 - r.RaftLog.first)] }
        (fun pid pr hmem hne => hsend pid pr (List.mem_cons_of_mem _ hmem) hne)
      have hms2 : bcastAppendAux { r with msgs := r.msgs ++
          [mkAppendMsg r p.1 (prL.Next - 1) t (prL.Next - 1 + 1 - r.RaftLog.first)] } rest
          = some { r with msgs := (r.msgs ++
              [mkAppendMsg r p.1 (prL.Next - 1) t (prL.Next - 1 + 1 - r.RaftLog.first)])
                ++ ms' } := hms'
      refine ⟨mkAppendMsg r p.1 (prL.Next - 1) t (prL.Next - 1 + 1 - r.RaftLog.first)
          :: ms', ?_, ?_⟩
      · rw [hstep, hms2, List.append_assoc, List.singleton_append]
      · intro pid pr hmem hne
        rcases List.mem_cons.mp hmem with heq | hmem2
        · refine ⟨mkAppendMsg r p.1 (prL.Next - 1) t (prL.Next - 1 + 1 - r.RaftLog.first),
            List.mem_cons_self _ _, rfl, ?_, rfl⟩
          have h1 := congrArg Prod.fst heq
          exact h1.symm
        · obtain ⟨mg, hmg, h2, h3, h4⟩ := hcov pid pr hmem2 hne
          exact ⟨mg, List.mem_cons_of_mem _ hmg, h2, h3, h4⟩
    · have hpid : r.id = p.1 := not_not.mp hp
      have hstep : bcastAppendAux r (p :: rest) = bcastAppendAux r rest := by
        conv_lhs => unfold bcastAppendAux
        rw [if_neg hp]
      obtain ⟨ms', hms', hcov⟩ := ih r
        (fun pid pr hmem hne => hsend pid pr (List.mem_cons_of_mem _ hmem) hne)
      refine ⟨ms', hstep.trans hms', ?_⟩
      intro pid pr hmem hne
      rcases List.mem_cons.mp hmem with heq | hmem2
      · have h1 := congrArg Prod.fst heq
        exact absurd (h1.trans hpid.symm) hne
      · exact hcov pid pr hmem2 hne

/-! ### Claims -/

/-- C1 (code bug): a node can vote for two distinct candidates in one
term.  Trace on `Step`: from a fresh three-peer follower, MsgHup makes
the node a candidate at term 1 with `Vote = 1` (itself); an equal-term
MsgAppend demotes it via `becomeFollower`, which clears `Vote` even
though the term did not change; a subsequent term-1 MsgRequestVote from
peer 3 is then granted (`Vote = 3`, reply with `reject = false`).  The
Term stayed at 1 throughout, yet `Vote` moved from peer 1 to peer 3. -/
theorem c1_double_vote_same_term :
    (c1s1.map fun p => (p.1.Term, p.1.Vote, p.1.State == .candidate))
      = some (1, 1, true)
    ∧ (c1s2.map fun p => (p.1.Term, p.1.Vote, p.1.State == .follower))
      = some (1, 0, true)
    ∧ (c1s3.map fun p => (p.1.Term, p.1.Vote,
        p.1.msgs.getLast?.map fun mg => (mg.msgType == .requestVoteResponse, mg.toId, mg.reject)))
      = some (1, 3, some (true, 3, false)) :=
  ⟨by decide, by decide, by decide⟩

/-- C3, counterexample: with the single-entry log `c3log` (last index 1),
`Term 5` aborts on an out-of-range in-memory access instead of
returning Unavailable, refuting "returns the error Unavailable (rather
than aborting) whenever i > last". -/
theorem c3_term_counterexample :
    c3log.LastIndex = 1
    ∧ c3log.Term 5 = .panicked
    ∧ c3log.Term 5 ≠ .err .unavailable :=
  by refine ⟨by decide, by decide, by decide⟩

/-- C4, counterexample: a MsgPropose stepped into the follower `c4r`
leaves the state literally unchanged and `Step` reports no error at all
(`none`, not ProposalDropped), refuting "the ProposalDropped error is
surfaced to the caller". -/
theorem c4_propose_counterexample :
    c4r.State ≠ .leader ∧ c4r.Step c4m = some (c4r, none) :=
  ⟨by decide, rfl⟩

/-- C5, counterexample: compacting `c5log` (storage FirstIndex 4) raises
`first` to 4 and drops the prefix, but leaves `applied = 0`, which is
below `first − 1 = 3` — `applied` is not clamped, refuting that part of
the claim. -/
theorem c5_compact_counterexample :
    c5log.applied = 0
    ∧ c5log.storage.firstIndex = 4
    ∧ (c5log.maybeCompact.map fun l => (l.first, l.applied, decide (l.first - 1 ≤ l.applied)))
      = some (4, 0, false) :=
  by refine ⟨by decide, by decide, by decide⟩

/-- C7, counterexample: the follower `c7r` (term 1, 3 elapsed election
ticks) steps a term-2 MsgRequestVote; it becomes a follower at term 2,
but `electionElapsed` stays 3 — the elapsed election tick count is not
reset to zero, refuting that part of the claim. -/
theorem c7_higher_term_counterexample :
    c7r.Term = 1 ∧ c7m.term = 2 ∧ c7r.electionElapsed = 3
    ∧ ((c7r.Step c7m).map fun p => (p.1.Term, p.1.State == .follower, p.1.electionElapsed))
      = some (2, true, 3) :=
  by refine ⟨by decide, by decide, by decide, by decide⟩

/-- C3 (amended): `Term(i)` consults the in-memory tail first — when the
tail is nonempty and `i ≥ first` it returns the tail entry's term if
`i − first` is within the tail and aborts (index out of range)
otherwise, even when `i > last`; only when the tail is empty or
`i < first` does it consult Storage, whose Compacted answer passes
through, and the pending-snapshot metadata is used only as a fallback
when Storage reports Unavailable: the snapshot's term when `i` equals
its last-included index, Compacted when below it, Unavailable
otherwise. -/
theorem c3_term_resolution_amended (l : RaftLog) (i : Nat) :
    (0 < l.entries.length → l.first ≤ i → i - l.first < l.entries.length →
      l.Term i = .ok ((l.entries.getD (i - l.first) ⟨0, 0, 0⟩).term))
    ∧ (0 < l.entries.length → l.first ≤ i → l.entries.length ≤ i - l.first →
      l.Term i = .panicked)
    ∧ ((l.entries.length = 0 ∨ i < l.first) →
        (∀ t, l.storage.term i = .ok t → l.Term i = .ok t)
        ∧ (l.storage.term i = .error .compacted → l.Term i = .err .compacted)
        ∧ (l.storage.term i = .error .unavailable → l.pendingSnapshot = none →
            l.Term i = .err .unavailable)
        ∧ (∀ ps, l.storage.term i = .error .unavailable →
            l.pendingSnapshot = some ps → isEmptySnap (some ps) = false →
            l.Term i = if i = ps.index then .ok ps.term
              else if i < ps.index then .err .compacted
              else .err .unavailable)) := by
  refine ⟨?_, ?_, ?_⟩
  · intro h1 h2 h3
    unfold RaftLog.Term
    rw [if_pos ⟨h1, h2⟩, List.getElem?_eq_getElem h3]
    simp [List.getD_eq_getElem?_getD, List.getElem?_eq_getElem h3]
  · intro h1 h2 h3
    unfold RaftLog.Term
    rw [if_pos ⟨h1, h2⟩, List.getElem?_eq_none (by omega)]
  · intro hcond
    have hneg : ¬ (0 < l.entries.length ∧ l.first ≤ i) := by
      rcases hcond with h | h <;> omega
    refine ⟨?_, ?_, ?_, ?_⟩
    · intro t ht
      unfold RaftLog.Term
      rw [if_neg hneg, ht]
    · intro ht
      unfold RaftLog.Term
      rw [if_neg hneg, ht]
    · intro ht hps
      unfold RaftLog.Term
      rw [if_neg hneg, ht, hps]
    · intro ps ht hps hemp
      unfold RaftLog.Term
      rw [if_neg hneg, ht, hps]
      simp [hemp]

/-- C3, witness for the amended theorem: a tail hit, a tail overrun, and
the snapshot fallback answering Compacted below its last-included
index. -/
theorem c3_term_resolution_amended_witness :
    c3log.Term 1 = .ok ((c3log.entries.getD 0 ⟨0, 0, 0⟩).term)
    ∧ c3log.Term 5 = .panicked
    ∧ c3snapLog.Term 2 = (if 2 = (3 : Nat) then TermResult.ok 7
        else if 2 < (3 : Nat) then .err .compacted else .err .unavailable) :=
  ⟨(c3_term_resolution_amended c3log 1).1 (by decide) (by decide) (by decide),
   (c3_term_resolution_amended c3log 5).2.1 (by decide) (by decide) (by decide),
   ((c3_term_resolution_amended c3snapLog 2).2.2 (Or.inl rfl)).2.2.2
     ⟨3, 7⟩ rfl rfl (by decide)⟩

/-- C5 (amended): when Storage's FirstIndex has advanced past `first`,
`maybeCompact` drops the in-memory prefix below it and raises `first`
to it; `applied` (and the other cursors) are left untouched — no
clamping of `applied` is performed. -/
theorem c5_maybe_compact_amended (l : RaftLog)
    (h1 : l.first < l.storage.firstIndex)
    (h2 : 0 < l.entries.length)
    (h3 : l.storage.firstIndex - l.first ≤ l.entries.length) :
    ∃ l', l.maybeCompact = some l'
      ∧ l'.first = l.storage.firstIndex
      ∧ l'.entries = l.entries.drop (l.storage.firstIndex - l.first)
      ∧ l'.applied = l.applied
      ∧ l'.committed = l.committed
      ∧ l'.stabled = l.stabled := by
  refine ⟨{ l with
      entries := l.entries.drop (l.storage.firstIndex - l.first)
      first := l.storage.firstIndex }, ?_, rfl, rfl, rfl, rfl, rfl⟩
  have hnl : ¬ l.storage.firstIndex < l.first := by omega
  unfold RaftLog.maybeCompact RaftLog.toSliceIndex
  simp [h1, h2, h3, hnl]

/-- C5, witness for the amended theorem, at the fixture `c5log`. -/
theorem c5_maybe_compact_amended_witness :
    ∃ l', c5log.maybeCompact = some l'
      ∧ l'.first = c5log.storage.firstIndex
      ∧ l'.entries = c5log.entries.drop (c5log.storage.firstIndex - c5log.first)
      ∧ l'.applied = c5log.applied
      ∧ l'.committed = c5log.committed
      ∧ l'.stabled = c5log.stabled :=
  c5_maybe_compact_amended c5log (by decide) (by decide) (by decide)

/-- C4 (amended): a MsgPropose arriving at a non-leader (at a term not
above the node's) is silently dropped: `Step` leaves the state literally
unchanged — no entry appended, no field changed, no outbound message —
and returns nil rather than surfacing ErrProposalDropped. -/
theorem c4_propose_dropped_amended (r : Raft) (m : Message)
    (hstate : r.State ≠ .leader)
    (htype : m.msgType = .propose)
    (hterm : m.term ≤ r.Term) :
    r.Step m = some (r, none) := by
  have hlt : ¬ r.Term < m.term := by omega
  cases hlook : lookupPrs r.Prs r.id with
  | none => unfold Raft.Step; rw [hlook]
  | some pr =>
    unfold Raft.Step
    rw [hlook]
    simp only [hlt, if_false]
    cases hs : r.State with
    | leader => exact absurd hs hstate
    | follower => simp [Raft.stepFollower, htype]
    | candidate => simp [Raft.stepCandidate, htype]

/-- C4, witness for the amended theorem, at the fixture `c4r`/`c4m`. -/
theorem c4_propose_dropped_amended_witness :
    c4r.Step c4m = some (c4r, none) :=
  c4_propose_dropped_amended c4r c4m (by decide) (by decide) (by decide)

/-- C7 (amended): a message with a term above the node's makes it a
follower at that term with no known leader and a cleared vote, and a
fresh randomized election timeout is drawn from the oracle — but the
elapsed election tick count is left at its prior value — and the
message is then handled in the follower state. -/
theorem c7_higher_term_amended (r : Raft) (m : Message) (pr : Progress)
    (hterm : r.Term < m.term)
    (hid : lookupPrs r.Prs r.id = some pr) :
    (r.becomeFollower m.term 0).State = .follower
    ∧ (r.becomeFollower m.term 0).Term = m.term
    ∧ (r.becomeFollower m.term 0).Lead = 0
    ∧ (r.becomeFollower m.term 0).Vote = 0
    ∧ (r.becomeFollower m.term 0).electionElapsed = r.electionElapsed
    ∧ (r.becomeFollower m.term 0).randomizedElectionTimeout
        = r.electionTimeout + r.randSrc.headD 0 % r.electionTimeout
    ∧ (r.becomeFollower m.term 0).randSrc = r.randSrc.tail
    ∧ r.Step m =
        ((r.becomeFollower m.term 0).stepFollower m).map fun r' => (r', none) := by
  refine ⟨rfl, rfl, rfl, rfl, rfl, rfl, rfl, ?_⟩
  unfold Raft.Step
  rw [hid]
  simp only [hterm, if_true]
  have hst : (r.becomeFollower m.term 0).State = .follower := rfl
  rw [hst]
  cases hsf : (r.becomeFollower m.term 0).stepFollower m <;> simp [hsf]

/-- C7, witness for the amended theorem, at the fixture `c7r`/`c7m`. -/
theorem c7_higher_term_amended_witness :
    (c7r.becomeFollower c7m.term 0).State = .follower
    ∧ (c7r.becomeFollower c7m.term 0).Term = c7m.term
    ∧ (c7r.becomeFollower c7m.term 0).Lead = 0
    ∧ (c7r.becomeFollower c7m.term 0).Vote = 0
    ∧ (c7r.becomeFollower c7m.term 0).electionElapsed = c7r.electionElapsed
    ∧ (c7r.becomeFollower c7m.term 0).randomizedElectionTimeout
        = c7r.electionTimeout + c7r.randSrc.headD 0 % c7r.electionTimeout
    ∧ (c7r.becomeFollower c7m.term 0).randSrc = c7r.randSrc.tail
    ∧ c7r.Step c7m =
        ((c7r.becomeFollower c7m.term 0).stepFollower c7m).map fun r' => (r', none) :=
  c7_higher_term_amended c7r c7m {} (by decide) (by decide)

/-- C6: on the accept path of `handleAppendEntries` (no term reject, no
missing-prefix reject, no conflict at the previous index, merge
succeeds), the committed cursor becomes `min(C, P + |E|)` exactly when
`C` exceeds it, and an accepted append with empty entries never raises
it above `P`. -/
theorem c6_follower_commit_min (r : Raft) (m : Message) (lm : RaftLog)
    (h1 : ¬ m.term < r.Term)
    (h2 : ¬ r.RaftLog.LastIndex < m.index)
    (h3 : r.RaftLog.FirstIndex ≤ m.index → r.RaftLog.Term m.index = .ok m.logTerm)
    (hm : mergeEntries r.RaftLog m.entries = some lm) :
    ∃ r', r.handleAppendEntries m = some r'
      ∧ r'.RaftLog.committed =
          (if r.RaftLog.committed < m.commit then
            min m.commit (m.index + m.entries.length)
          else r.RaftLog.committed)
      ∧ (m.entries = [] →
          r'.RaftLog.committed ≤ max r.RaftLog.committed m.index) := by
  have hc := mergeEntries_committed m.entries r.RaftLog lm hm
  unfold Raft.handleAppendEntries
  simp only [if_neg h1, if_neg h2]
  by_cases hf : r.RaftLog.FirstIndex ≤ m.index
  · rw [if_pos hf, h3 hf]
    simp only [ne_eq, not_true_eq_false, ite_false,
      if_neg (fun hh : ¬ m.logTerm = m.logTerm => hh rfl)]
    rw [hm]
    refine ⟨_, rfl, ?_, ?_⟩
    · simp only [Raft.sendAppendResponse]
      split
      next hlt => rw [if_pos (hc ▸ hlt)]
      next hge => rw [if_neg (hc ▸ hge)]; exact hc
    · intro he
      simp only [Raft.sendAppendResponse, he, List.length_nil, Nat.add_zero]
      split
      next hlt => exact le_trans inf_le_right le_sup_right
      next hge => exact hc.trans_le le_sup_left
  · rw [if_neg hf]
    rw [hm]
    refine ⟨_, rfl, ?_, ?_⟩
    · simp only [Raft.sendAppendResponse]
      split
      next hlt => rw [if_pos (hc ▸ hlt)]
      next hge => rw [if_neg (hc ▸ hge)]; exact hc
    · intro he
      simp only [Raft.sendAppendResponse, he, List.length_nil, Nat.add_zero]
      split
      next hlt => exact le_trans inf_le_right le_sup_right
      next hge => exact hc.trans_le le_sup_left

/-- C8: the two reject replies of `handleAppendEntries` at a term not
above the sender's.  Case 3: a previous index beyond the local last
rejects with `(logTerm = 0, index = lastIndex + 1)`.  Case 4: a term
conflict at an in-range previous index rejects with the local term `t`
at that index and the earliest local index whose term equals `t` (the
binary search is exact because entry terms are non-decreasing). -/
theorem c8_append_reject_cases (r : Raft) (m : Message)
    (h1 : ¬ m.term < r.Term) :
    (r.RaftLog.LastIndex < m.index →
      r.handleAppendEntries m = some (Raft.sendAppendResponse
        { r with Lead := m.fromId, electionElapsed := 0 }
        m.fromId 0 (r.RaftLog.LastIndex + 1) true))
    ∧ (∀ t, ¬ r.RaftLog.LastIndex < m.index →
        r.RaftLog.FirstIndex ≤ m.index →
        r.RaftLog.Term m.index = .ok t →
        t ≠ m.logTerm →
        m.index + 1 - r.RaftLog.first ≤ r.RaftLog.entries.length →
        List.Pairwise (fun e1 e2 => e1.term ≤ e2.term) r.RaftLog.entries →
        ∃ k, r.handleAppendEntries m = some (Raft.sendAppendResponse
            { r with Lead := m.fromId, electionElapsed := 0 }
            m.fromId t (r.RaftLog.toEntryIndex k) true)
          ∧ k ≤ m.index - r.RaftLog.first
          ∧ (r.RaftLog.entries.getD k ⟨0, 0, 0⟩).term = t
          ∧ (∀ j, j < k → (r.RaftLog.entries.getD j ⟨0, 0, 0⟩).term ≠ t)) := by
  constructor
  · intro hlast
    unfold Raft.handleAppendEntries
    simp only [if_neg h1, if_pos hlast]
  · intro t hlast hf hterm hne hbound hpair
    have hf' : r.RaftLog.first ≤ m.index := hf
    have hlen : 0 < r.RaftLog.entries.length := by omega
    have hidx : m.index - r.RaftLog.first < r.RaftLog.entries.length := by omega
    have htP : (r.RaftLog.entries.getD (m.index - r.RaftLog.first) ⟨0, 0, 0⟩).term = t := by
      unfold RaftLog.Term at hterm
      rw [if_pos ⟨hlen, hf'⟩, List.getElem?_eq_getElem hidx] at hterm
      injection hterm with h'
      simp only [List.getD_eq_getElem?_getD]
      rw [List.getElem?_eq_getElem hidx]
      exact h'
    have hsorted : ∀ a b, a ≤ b → b < r.RaftLog.entries.length →
        (r.RaftLog.entries.getD a ⟨0, 0, 0⟩).term ≤
          (r.RaftLog.entries.getD b ⟨0, 0, 0⟩).term := by
      intro a b hab hb
      rcases eq_or_lt_of_le hab with rfl | hlt
      · exact le_refl _
      · have ha : a < r.RaftLog.entries.length := by omega
        have := (List.pairwise_iff_get.mp hpair) ⟨a, ha⟩ ⟨b, hb⟩ hlt
        simp only [List.getD_eq_getElem?_getD]
        rw [List.getElem?_eq_getElem ha, List.getElem?_eq_getElem hb]
        exact this
    have hmono : ∀ a b, a ≤ b → b < m.index + 1 - r.RaftLog.first →
        ((r.RaftLog.entries.getD a ⟨0, 0, 0⟩).term == t) = true →
        ((r.RaftLog.entries.getD b ⟨0, 0, 0⟩).term == t) = true := by
      intro a b hab hb hpa
      have ha' : (r.RaftLog.entries.getD a ⟨0, 0, 0⟩).term = t := eq_of_beq hpa
      have h1' := hsorted a b hab (by omega)
      have h2' := hsorted b (m.index - r.RaftLog.first) (by omega) hidx
      rw [htP] at h2'
      rw [ha'] at h1'
      exact beq_of_eq (le_antisymm h2' h1')
    obtain ⟨hs1, hs2, hs3⟩ := sortSearch_spec (m.index + 1 - r.RaftLog.first)
      (fun k => (r.RaftLog.entries.getD k ⟨0, 0, 0⟩).term == t) hmono
    have hlastP : ((r.RaftLog.entries.getD (m.index - r.RaftLog.first) ⟨0, 0, 0⟩).term == t)
        = true := beq_of_eq htP
    have hres : sortSearch (m.index + 1 - r.RaftLog.first)
        (fun k => (r.RaftLog.entries.getD k ⟨0, 0, 0⟩).term == t)
        < m.index + 1 - r.RaftLog.first := by
      rcases lt_or_eq_of_le hs1 with h | h
      · exact h
      · exact absurd (hs2 (m.index - r.RaftLog.first) (by omega))
          (fun hfalse => by rw [hlastP] at hfalse; exact Bool.noConfusion hfalse)
    have hts : r.RaftLog.toSliceIndex (m.index + 1)
        = some (m.index + 1 - r.RaftLog.first) := by
      unfold RaftLog.toSliceIndex
      rw [if_neg (by omega : ¬ m.index + 1 < r.RaftLog.first)]
    refine ⟨sortSearch (m.index + 1 - r.RaftLog.first)
        (fun k => (r.RaftLog.entries.getD k ⟨0, 0, 0⟩).term == t),
      ?_, by omega, eq_of_beq (hs3 hres), fun j hj => ?_⟩
    · unfold Raft.handleAppendEntries
      simp only [if_neg h1, if_neg hlast, if_pos hf]
      rw [hterm]
      simp only [ne_eq, if_pos hne]
      rw [hts]
      simp only [if_pos hbound]
    · exact ne_of_beq_false (hs2 j hj)

/-- C9, counterexample: the follower `c9r` has `committed = 5`; stepping
the stale MsgAppend `c9m` (previous index 2, no entries, commit 10)
lowers `committed` to `min 10 (2 + 0) = 2` — a Step that decreases the
committed cursor, refuting the claim as stated over arbitrary
messages. -/
theorem c9_commit_decrease_counterexample :
    c9r.RaftLog.committed = 5
    ∧ ((c9r.Step c9m).map fun p => p.1.RaftLog.committed) = some 2 :=
  ⟨by decide, by decide⟩

/-- C6, witness: `c6r` (committed 2) accepts `c6m` (P=3, empty entries,
C=4) and moves `committed` to `min 4 (3+0) = 3 ≤ P`. -/
theorem c6_follower_commit_min_witness :
    ∃ r', c6r.handleAppendEntries c6m = some r'
      ∧ r'.RaftLog.committed =
          (if c6r.RaftLog.committed < c6m.commit then
            min c6m.commit (c6m.index + c6m.entries.length)
          else c6r.RaftLog.committed)
      ∧ (c6m.entries = [] →
          r'.RaftLog.committed ≤ max c6r.RaftLog.committed c6m.index) :=
  c6_follower_commit_min c6r c6m c6r.RaftLog (by decide) (by decide) (by decide) rfl

/-- C8, witness: `c8r` rejects `c8m1` (P=9 beyond last=3) with
`(0, lastIndex+1)`, and rejects `c8m2` (conflict at P=3, local term 2)
with logTerm 2 and the earliest index of term 2. -/
theorem c8_append_reject_cases_witness :
    (c8r.handleAppendEntries c8m1 = some (Raft.sendAppendResponse
        { c8r with Lead := c8m1.fromId, electionElapsed := 0 }
        c8m1.fromId 0 (c8r.RaftLog.LastIndex + 1) true))
    ∧ (∃ k, c8r.handleAppendEntries c8m2 = some (Raft.sendAppendResponse
          { c8r with Lead := c8m2.fromId, electionElapsed := 0 }
          c8m2.fromId 2 (c8r.RaftLog.toEntryIndex k) true)
        ∧ k ≤ c8m2.index - c8r.RaftLog.first
        ∧ (c8r.RaftLog.entries.getD k ⟨0, 0, 0⟩).term = 2
        ∧ (∀ j, j < k → (c8r.RaftLog.entries.getD j ⟨0, 0, 0⟩).term ≠ 2)) :=
  ⟨(c8_append_reject_cases c8r c8m1 (by decide)).1 (by decide),
   (c8_append_reject_cases c8r c8m2 (by decide)).2 2 (by decide) (by decide)
     (by decide) (by decide) (by decide) (by decide)⟩

/-- C10: on a single peer the Term field never decreases: any `Step` on
any message, any `tick`, and the role transitions `becomeCandidate` and
`becomeLeader` leave Term at least its prior value (`becomeFollower` is
only invoked along these paths with a term at least the current one). -/
theorem c10_term_monotone (r : Raft) :
    (∀ m r' e, r.Step m = some (r', e) → r.Term ≤ r'.Term)
    ∧ (∀ r', r.tick = some r' → r.Term ≤ r'.Term)
    ∧ r.Term ≤ r.becomeCandidate.Term
    ∧ (∀ r', r.becomeLeader = some r' → r.Term ≤ r'.Term) :=
  ⟨fun _ _ _ h => (Step_spec h).1,
   fun _ h => (tick_spec h).1,
   Nat.le_succ _,
   fun _ h => le_of_eq (becomeLeader_spec h).1.symm⟩

/-- C10, witness: the hypotheses are satisfiable — a Step and a tick on
concrete states succeed and Term does not decrease. -/
theorem c10_term_monotone_witness :
    (c1r0.Step msgHup).isSome = true
    ∧ (c1r0.Step msgHup).elim True (fun p => c1r0.Term ≤ p.1.Term)
    ∧ (c7r.tick).isSome = true
    ∧ (c7r.tick).elim True (fun q => c7r.Term ≤ q.Term) := by
  refine ⟨by decide, ?_, by decide, ?_⟩
  · cases hs : c1r0.Step msgHup with
    | none => trivial
    | some p =>
      exact (c10_term_monotone c1r0).1 msgHup p.1 p.2
        (hs.trans (congrArg some (Prod.mk.eta).symm))
  · cases hs : c7r.tick with
    | none => trivial
    | some q => exact (c10_term_monotone c7r).2.1 q hs

/-- C9 (amended): provided `committed ≤ LastIndex`, the commit cursor
never decreases under any `Step` whose MsgAppend payload satisfies
`commit ≤ prevIndex + |entries|` (true of every append the leader code
emits), nor under `tick`, `becomeLeader` or `appendEntries`. -/
theorem c9_commit_monotone_amended (r : Raft)
    (hcl : r.RaftLog.committed ≤ r.RaftLog.LastIndex) :
    (∀ m r' e, (m.msgType = .append → m.commit ≤ m.index + m.entries.length) →
      r.Step m = some (r', e) → r.RaftLog.committed ≤ r'.RaftLog.committed)
    ∧ (∀ r', r.tick = some r' → r.RaftLog.committed ≤ r'.RaftLog.committed)
    ∧ (∀ r', r.becomeLeader = some r' → r.RaftLog.committed ≤ r'.RaftLog.committed)
    ∧ (∀ ents r', r.appendEntries ents = some r' →
        r.RaftLog.committed ≤ r'.RaftLog.committed) :=
  ⟨fun _ _ _ hb h => (Step_spec h).2 hb hcl,
   fun _ h => (tick_spec h).2 hcl,
   fun _ h => (becomeLeader_spec h).2 hcl,
   fun _ _ h => (appendEntries_spec h).2 hcl⟩

/-- C9, witness for the amended theorem: the hypotheses are satisfiable
on concrete states for the Step, tick and becomeLeader legs. -/
theorem c9_commit_monotone_amended_witness :
    (c1r0.Step msgHup).isSome = true
    ∧ (c1r0.Step msgHup).elim True
        (fun p => c1r0.RaftLog.committed ≤ p.1.RaftLog.committed)
    ∧ (c7r.tick).elim True
        (fun q => c7r.RaftLog.committed ≤ q.RaftLog.committed)
    ∧ (c1r0.becomeLeader).isSome = true
    ∧ (c1r0.becomeLeader).elim True
        (fun q => c1r0.RaftLog.committed ≤ q.RaftLog.committed) := by
  refine ⟨by decide, ?_, ?_, by decide, ?_⟩
  · cases hs : c1r0.Step msgHup with
    | none => trivial
    | some p =>
      exact (c9_commit_monotone_amended c1r0 (by decide)).1 msgHup p.1 p.2 (by decide)
        (hs.trans (congrArg some (Prod.mk.eta).symm))
  · cases hs : c7r.tick with
    | none => trivial
    | some q => exact (c9_commit_monotone_amended c7r (by decide)).2.1 q hs
  · cases hs : c1r0.becomeLeader with
    | none => trivial
    | some q => exact (c9_commit_monotone_amended c1r0 (by decide)).2.2.1 q hs

/-- C2: a leader processing an accepted MsgAppendResponse that raises
the sender's Match updates that peer's progress to
`(Match, Next) = (I, I+1)`, computes the quorum index `N` (the sorted
Match values' element at `(n−1)/2`, with the leader's own Match standing
at its last index), and then commits to `N` and queues a MsgAppend
carrying commit `N` to every other peer exactly when `N` advances
`committed` and the entry at `N` bears the leader's own term; otherwise
`committed` and the outbound buffer are untouched — in particular an
entry from a prior term is never committed by counting replicas. -/
theorem c2_leader_commit_median_rule (r : Raft) (m : Message)
    (pr prSelf : Progress) (N : Nat)
    (hterm : ¬ m.term < r.Term)
    (hreject : m.reject = false)
    (hpr : lookupPrs r.Prs m.fromId = some pr)
    (hraise : pr.Match < m.index)
    (hself : lookupPrs r.Prs r.id = some prSelf)
    (hselfMatch : prSelf.Match = r.RaftLog.LastIndex)
    (hN : medianMatch (updatePrs r.Prs m.fromId fun _ => ⟨m.index, m.index + 1⟩)
      = some N)
    (hTN : r.RaftLog.committed < N → ∃ tN, r.RaftLog.Term N = .ok tN)
    (hsend : ∀ pid prq,
      (pid, prq) ∈ updatePrs r.Prs m.fromId (fun _ => ⟨m.index, m.index + 1⟩) →
      pid ≠ r.id →
      ∃ prL, lookupPrs (updatePrs r.Prs m.fromId fun _ => ⟨m.index, m.index + 1⟩) pid
          = some prL
        ∧ (∃ t, r.RaftLog.Term (prL.Next - 1) = .ok t)
        ∧ ¬ prL.Next - 1 + 1 < r.RaftLog.first) :
    ∃ r', r.handleAppendEntriesResponse m = some r'
      ∧ lookupPrs r'.Prs m.fromId = some ⟨m.index, m.index + 1⟩
      ∧ ((r.RaftLog.committed < N ∧ r.RaftLog.Term N = .ok r.Term) →
          r'.RaftLog.committed = N
          ∧ ∃ ms, r'.msgs = r.msgs ++ ms
            ∧ ∀ pid prq,
                (pid, prq) ∈ updatePrs r.Prs m.fromId (fun _ => ⟨m.index, m.index + 1⟩) →
                pid ≠ r.id →
                ∃ mg, mg ∈ ms ∧ mg.msgType = .append ∧ mg.toId = pid ∧ mg.commit = N)
      ∧ (¬ (r.RaftLog.committed < N ∧ r.RaftLog.Term N = .ok r.Term) →
          r'.RaftLog.committed = r.RaftLog.committed ∧ r'.msgs = r.msgs) := by
  unfold Raft.handleAppendEntriesResponse
  dsimp only []
  rw [if_neg hterm]
  simp only [hreject, Bool.false_eq_true, if_false]
  rw [hpr]
  dsimp only []
  rw [if_pos hraise]
  unfold Raft.leaderCommit
  dsimp only []
  rw [hN]
  dsimp only []
  by_cases hc : r.RaftLog.committed < N
  · rw [if_pos hc]
    obtain ⟨tN, htN⟩ := hTN hc
    rw [htN]
    dsimp only []
    by_cases ht : tN = r.Term
    · rw [if_pos (by simp [ht])]
      obtain ⟨ms, hms, hcov⟩ := bcastAppendAux_sends
        (updatePrs r.Prs m.fromId fun _ => ⟨m.index, m.index + 1⟩)
        { r with
          Prs := updatePrs r.Prs m.fromId fun _ => ⟨m.index, m.index + 1⟩
          RaftLog := { r.RaftLog with committed := N } }
        (fun pid prq hmem hne => hsend pid prq hmem hne)
      refine ⟨_, hms, ?_, ?_, ?_⟩
      · show lookupPrs (updatePrs r.Prs m.fromId fun _ => ⟨m.index, m.index + 1⟩)
            m.fromId = some ⟨m.index, m.index + 1⟩
        rw [lookupPrs_updatePrs_self, hpr]
        rfl
      · intro _
        refine ⟨rfl, ms, rfl, fun pid prq hmem hne => ?_⟩
        exact hcov pid prq hmem hne
      · intro hneg
        exact absurd ⟨hc, congrArg TermResult.ok ht⟩ hneg
    · rw [if_neg (by simp [ht])]
      refine ⟨_, rfl, ?_, ?_, ?_⟩
      · show lookupPrs (updatePrs r.Prs m.fromId fun _ => ⟨m.index, m.index + 1⟩)
            m.fromId = some ⟨m.index, m.index + 1⟩
        rw [lookupPrs_updatePrs_self, hpr]
        rfl
      · intro hcond
        exact absurd (TermResult.ok.inj hcond.2) ht
      · intro _
        exact ⟨rfl, rfl⟩
  · rw [if_neg hc]
    refine ⟨_, rfl, ?_, ?_, ?_⟩
    · show lookupPrs (updatePrs r.Prs m.fromId fun _ => ⟨m.index, m.index + 1⟩)
          m.fromId = some ⟨m.index, m.index + 1⟩
      rw [lookupPrs_updatePrs_self, hpr]
      rfl
    · intro hcond
      exact absurd hcond.1 hc
    · intro _
      exact ⟨rfl, rfl⟩

/-- C2, witness: on `c2r`, peer 2's acceptance of index 1 makes Match
values (1, 1, 0), whose sorted middle is N = 1; entry 1 bears the
leader's term, so the leader commits to 1 and broadcasts MsgAppend with
commit 1 to peers 2 and 3. -/
theorem c2_leader_commit_median_rule_witness :
    ∃ r', c2r.handleAppendEntriesResponse c2m = some r'
      ∧ lookupPrs r'.Prs c2m.fromId = some ⟨c2m.index, c2m.index + 1⟩
      ∧ r'.RaftLog.committed = 1
      ∧ ∃ ms, r'.msgs = c2r.msgs ++ ms
        ∧ ∀ pid prq,
            (pid, prq) ∈ updatePrs c2r.Prs c2m.fromId (fun _ => ⟨c2m.index, c2m.index + 1⟩) →
            pid ≠ c2r.id →
            ∃ mg, mg ∈ ms ∧ mg.msgType = .append ∧ mg.toId = pid ∧ mg.commit = 1 := by
  obtain ⟨r', h1, h2, h3, _⟩ := c2_leader_commit_median_rule c2r c2m ⟨0, 1⟩ ⟨1, 2⟩ 1
    (by decide) rfl rfl (by decide) rfl rfl rfl
    (fun _ => ⟨1, rfl⟩)
    (by
      intro pid prq hmem hne
      have hl : updatePrs c2r.Prs c2m.fromId (fun _ => ⟨c2m.index, c2m.index + 1⟩)
          = [(1, ⟨1, 2⟩), (2, ⟨1, 2⟩), (3, ⟨0, 1⟩)] := rfl
      rw [hl] at hmem
      simp only [List.mem_cons, List.not_mem_nil, or_false] at hmem
      rcases hmem with h | h | h
      · injection h with h1 h2
        exact absurd h1 hne
      · injection h with h1 h2
        subst h1
        exact ⟨⟨1, 2⟩, rfl, ⟨1, rfl⟩, by decide⟩
      · injection h with h1 h2
        subst h1
        exact ⟨⟨0, 1⟩, rfl, ⟨0, rfl⟩, by decide⟩)
  obtain ⟨hc, ms, hms, hcov⟩ := h3 ⟨by decide, rfl⟩
  exact ⟨r', h1, h2, hc, ms, hms, hcov⟩

end TinyKV
